import Mathlib

/-!
# ffmpeg_microscope: the statistics engine of `ffmpeg_microscope.c`

A shallow embedding of the C source and proofs of the properties its
specification states.

Modelling conventions

* `double` is an arbitrary linearly ordered field `α` with a floor function
  (exact arithmetic, no NaN, no rounding).  The rationals and the reals are
  instances.  Division by zero yields `0` in the model whereas C yields NaN or
  an infinity, so every theorem that relies on a quotient states that its
  divisor is not zero.
* The namespace `Binary64` holds a second model of the numerical functions, with
  the rounding of IEEE 754 binary64 after every operation.  A property that
  rounding breaks is stated over exact arithmetic, and the run of the `double`
  model that breaks it is a theorem of the section on rounding.
* `sqrt` of `math.h` is a parameter `sqrt : α → α`; a theorem that needs a
  property of the square root takes it as a hypothesis and is instantiated at
  `Real.sqrt`.  `pow (x, k)` for a literal `k` is `x ^ k`, `fabs` is `|x|`.
* `int` is `Int`, holding a value of the 32-bit range.  The doubling
  `capacity * 2` of `add_data_point`, the one product of the store, wraps around
  as two's complement (`wrapInt`), and the byte count handed to `realloc` is
  computed as a 64-bit `size_t` (`reallocSize`).  The increment `count + 1`
  follows the test `count < capacity` and cannot leave the range; the total
  `total_frames` is exact.
* The outcome of an allocation is a parameter (`malloc_ok`, `realloc_ok`), and
  so are `atoi` and `atof` of `stdlib.h`.  A file is the list of its chars, a C
  `char` being a `Char`; `fgets` and `strtok` are modelled on such lists.
* A C array is the list of its initialised cells.  A read outside the list is
  undefined behaviour in C and is `none` in the model, so the functions that
  read arrays return an `Option`; a result `some _` shows that every read was
  inside the array.
* `for (int i = 0; i < k; i++)` is a left fold over `List.range k`.
-/

namespace FfmpegMicroscope

variable {α : Type} [LinearOrderedField α]

/-! ## Data model (lines 13-50) -/

/-- The struct `DataPoint` (lines 13-19): one measurement record. -/
structure DataPoint (α : Type) where
  chunk_index : Int
  bitrate : α
  frame_count : Int
  chunk_size : α
  timestamp : α

/-- The struct `Statistics` (lines 21-44). -/
structure Statistics (α : Type) where
  max : α
  min : α
  avg : α
  median : α
  std : α
  variance : α
  q1 : α
  q3 : α
  q5 : α
  q95 : α
  iqr : α
  range : α
  cv : α
  skewness : α
  kurtosis : α
  num_chunks : Int
  total_duration : α
  total_frames : Int
  avg_chunk_size : α
  time_resolution : α
  stability_index : α
  peak_to_avg_ratio : α

/-- The struct `Dataset` (lines 46-50).  `data` lists the initialised cells of
the buffer, in index order; `count` and `capacity` are the two `int` fields. -/
structure Dataset (α : Type) where
  data : List (DataPoint α)
  count : Int
  capacity : Int

/-- A line written by `log_message (level, message)` (lines 106-112), without
its wall-clock prefix. -/
structure LogLine where
  level : String
  message : String
deriving DecidableEq

/-- Read of `a[i]` for an `int` index: outside the initialised cells there is
no value. -/
def readAt {β : Type} (a : List β) (i : Int) : Option β :=
  if i < 0 then none else a[i.toNat]?

/-- The initialiser `{0}` of a `Statistics` record (line 502). -/
def Statistics.zeroed : Statistics α where
  max := 0
  min := 0
  avg := 0
  median := 0
  std := 0
  variance := 0
  q1 := 0
  q3 := 0
  q5 := 0
  q95 := 0
  iqr := 0
  range := 0
  cv := 0
  skewness := 0
  kurtosis := 0
  num_chunks := 0
  total_duration := 0
  total_frames := 0
  avg_chunk_size := 0
  time_resolution := 0
  stability_index := 0
  peak_to_avg_ratio := 0

/-! ## Record store (`create_dataset`, `add_data_point`, lines 70-103) -/

/-- The function `create_dataset (initial_capacity)`; `none` is the `NULL` it
returns when one of its two allocations fails (`malloc_ds_ok` for the struct,
`malloc_data_ok` for the buffer). -/
def create_dataset (malloc_ds_ok malloc_data_ok : Bool) (initial_capacity : Int) :
    Option (Dataset α) :=
  if !malloc_ds_ok then none
  else if !malloc_data_ok then none
  else some { data := [], count := 0, capacity := initial_capacity }

/-- The assignment `ds->data[ds->count++] = point` (line 101).  The write has
to fall inside the buffer of `capacity` cells, otherwise there is no result;
writing the cell after the last initialised one appends, writing an
initialised cell replaces it, and a write that would leave a gap of
uninitialised cells is outside the model. -/
def store_data_point (ds : Dataset α) (point : DataPoint α) : Option (Dataset α) :=
  if 0 ≤ ds.count ∧ ds.count < ds.capacity then
    if ds.count.toNat = ds.data.length then
      some { ds with data := ds.data ++ [point], count := ds.count + 1 }
    else if ds.count.toNat < ds.data.length then
      some { ds with data := ds.data.set ds.count.toNat point, count := ds.count + 1 }
    else none
  else none

/-- The value a 32-bit `int` holds after an arithmetic result `x`: the two's
complement wrap-around into `-2147483648 .. 2147483647`. -/
def wrapInt (x : Int) : Int :=
  (x + 2147483648) % 4294967296 - 2147483648

/-- The value of `sizeof(DataPoint)` on an LP64 target: the two `int` fields are
padded to the alignment of the three `double` fields. -/
def sizeofDataPoint : Int := 40

/-- The byte count `sizeof(DataPoint) * new_capacity` of line 95: the `int` is
converted to the 64-bit unsigned `size_t` and the product is taken modulo
`2 ^ 64`. -/
def reallocSize (new_capacity : Int) : Int :=
  (sizeofDataPoint * new_capacity) % 18446744073709551616

/-- Whether `realloc (ds->data, sizeof(DataPoint) * new_capacity)` (line 95)
returns a block.  A request of more than `PTRDIFF_MAX` bytes fails, no object
being that large; for any other request `realloc_ok new_capacity` tells the
outcome. -/
def realloc (realloc_ok : Int → Bool) (new_capacity : Int) : Bool :=
  decide (reallocSize new_capacity ≤ 9223372036854775807) && realloc_ok new_capacity

/-- The function `add_data_point (ds, point)`: the value it returns and the
dataset after the call.  `realloc_ok c` tells whether the reallocation to `c`
cells succeeds when its byte count is one `realloc` can serve. -/
def add_data_point (realloc_ok : Int → Bool) (ds : Dataset α) (point : DataPoint α) :
    Option (Int × Dataset α) :=
  if ds.count ≥ ds.capacity then
    let new_capacity := wrapInt (ds.capacity * 2)
    if !realloc realloc_ok new_capacity then some (0, ds)
    else (store_data_point { ds with capacity := new_capacity } point).map (fun d => (1, d))
  else
    (store_data_point ds point).map (fun d => (1, d))

/-! ## CSV ingestion (`load_csv`, lines 129-214) -/

/-- The buffers that successive calls `fgets (line, size, file)` fill until the
end of the file `content`: each takes chars up to and including a newline, at
most `size - 1` of them.  `cur` is the buffer being filled, reversed. -/
def fgetsAll (size : Nat) : List Char → List Char → List (List Char)
  | [], cur => if cur = [] then [] else [cur.reverse]
  | c :: cs, cur =>
    if c = '\n' ∨ cur.length + 2 ≥ size then (c :: cur).reverse :: fgetsAll size cs []
    else fgetsAll size cs (c :: cur)

/-- The C string a buffer holds: its chars before the first NUL. -/
def cString (buf : List Char) : List Char :=
  buf.takeWhile (fun c => c ≠ Char.ofNat 0)

/-- The tokens that `strtok (line, delims)` and then `strtok (NULL, delims)`
return until `NULL`: the maximal runs of chars of the line that are not
delimiters (an empty run is no token).  `cur` is the run being read, reversed. -/
def strtokAll (delims : List Char) : List Char → List Char → List (List Char)
  | [], cur => if cur = [] then [] else [cur.reverse]
  | c :: cs, cur =>
    if c ∈ delims then
      if cur = [] then strtokAll delims cs [] else cur.reverse :: strtokAll delims cs []
    else strtokAll delims cs (c :: cur)

/-- The delimiters `",\n\r"` of lines 143 and 178. -/
def csvDelims : List Char := [',', '\n', '\r']

/-- The five column indices of line 138. -/
structure Columns where
  chunk_idx : Int
  bitrate_idx : Int
  frame_idx : Int
  size_idx : Int
  time_idx : Int
deriving DecidableEq

/-- The loop of lines 150-153 on the reversed token: from its end, blanks are
cut off while a char is left before them. -/
def trimEnd : List Char → List Char
  | [] => []
  | c :: rest =>
    if rest ≠ [] ∧ (c = ' ' ∨ c = '\t' ∨ c = '\n' ∨ c = '\r') then trimEnd rest else c :: rest

/-- The trimming of a header token (lines 148-153). -/
def trimToken (token : List Char) : List Char :=
  (trimEnd (token.dropWhile (fun c => c = ' ' ∨ c = '\t')).reverse).reverse

/-- The body of the header loop (lines 147-159) for the token in column `col`. -/
def load_csv_header_step (cols : Columns) (token : List Char) (col : Int) : Columns :=
  let token := trimToken token
  if token = "chunk_index".toList then { cols with chunk_idx := col }
  else if token = "bitrate_per_chunk".toList then { cols with bitrate_idx := col }
  else if token = "frame_count".toList then { cols with frame_idx := col }
  else if token = "chunk_size".toList then { cols with size_idx := col }
  else if token = "timestamp".toList then { cols with time_idx := col }
  else cols

/-- The header loop (lines 146-163) over the tokens left, `col` being the index
of the first of them. -/
def load_csv_header : List (List Char) → Int → Columns → Columns
  | [], _, cols => cols
  | token :: rest, col, cols =>
    load_csv_header rest (col + 1) (load_csv_header_step cols token col)

/-- The column indices after the header block (lines 138-164): all `-1` when
`fgets` finds no first line, otherwise what the header loop makes of the tokens
of the first line. -/
def load_csv_columns (lines : List (List Char)) : Columns :=
  match lines with
  | [] => ⟨-1, -1, -1, -1, -1⟩
  | header :: _ =>
    load_csv_header (strtokAll csvDelims (cString header) []) 0 ⟨-1, -1, -1, -1, -1⟩

/-- The body of the row loop (lines 182-192) for the token in column `col`. -/
def load_csv_row_step (atoi : List Char → Int) (atof : List Char → α) (cols : Columns)
    (point : DataPoint α) (token : List Char) (col : Int) : DataPoint α :=
  if col = cols.chunk_idx then { point with chunk_index := atoi token }
  else if col = cols.bitrate_idx then { point with bitrate := atof token }
  else if col = cols.frame_idx ∧ cols.frame_idx ≠ -1 then { point with frame_count := atoi token }
  else if col = cols.size_idx ∧ cols.size_idx ≠ -1 then { point with chunk_size := atof token }
  else if col = cols.time_idx ∧ cols.time_idx ≠ -1 then { point with timestamp := atof token }
  else point

/-- The row loop (lines 181-196) over the tokens left, `col` being the index of
the first of them. -/
def load_csv_row (atoi : List Char → Int) (atof : List Char → α) (cols : Columns) :
    List (List Char) → Int → DataPoint α → DataPoint α
  | [], _, point => point
  | token :: rest, col, point =>
    load_csv_row atoi atof cols rest (col + 1) (load_csv_row_step atoi atof cols point token col)

/-- The record a data line is parsed into (lines 177-196), from the record
`{0}`. -/
def load_csv_point (atoi : List Char → Int) (atof : List Char → α) (cols : Columns)
    (line : List Char) : DataPoint α :=
  load_csv_row atoi atof cols (strtokAll csvDelims (cString line) []) 0 ⟨0, 0, 0, 0, 0⟩

/-- What `load_csv` leaves: the value it returns, the dataset and the lines it
logged. -/
structure LoadResult (α : Type) where
  ret : Int
  ds : Dataset α
  log : List LogLine

/-- The loop over the data lines (lines 175-205) and the end of `load_csv`
(lines 207-213). -/
def load_csv_rows (atoi : List Char → Int) (atof : List Char → α) (realloc_ok : Int → Bool)
    (cols : Columns) : List (List Char) → Dataset α → List LogLine → Option (LoadResult α)
  | [], ds, log =>
    some { ret := 1, ds := ds
           log := log ++ [⟨"INFO", "Loaded " ++ toString ds.count ++ " data points from CSV"⟩] }
  | line :: rest, ds, log =>
    let point := load_csv_point atoi atof cols line
    if point.bitrate > 0 then
      match add_data_point realloc_ok ds point with
      | none => none
      | some (r, ds1) =>
        if r = 0 then
          some { ret := 0, ds := ds1, log := log ++ [⟨"ERROR", "Failed to add data point"⟩] }
        else load_csv_rows atoi atof realloc_ok cols rest ds1 log
    else load_csv_rows atoi atof realloc_ok cols rest ds log

/-- The function `load_csv (filename, ds)`.  `file` is the content of the file,
`none` when it cannot be opened; `atoi` and `atof` are those of `stdlib.h`.
The counter `line_num` is written and never read, and is left out. -/
def load_csv (atoi : List Char → Int) (atof : List Char → α) (realloc_ok : Int → Bool)
    (file : Option (List Char)) (ds : Dataset α) : Option (LoadResult α) :=
  match file with
  | none => some { ret := 0, ds := ds, log := [⟨"ERROR", "Cannot open CSV file"⟩] }
  | some content =>
    let lines := fgetsAll 4096 content []
    let cols := load_csv_columns lines
    if cols.chunk_idx = -1 ∨ cols.bitrate_idx = -1 then
      some { ret := 0, ds := ds, log := [⟨"ERROR", "Required columns not found in CSV"⟩] }
    else
      load_csv_rows atoi atof realloc_ok cols lines.tail ds
        [⟨"INFO", "CSV header validated successfully"⟩]

/-! ## Sorter (`sort_doubles`, lines 216-226) -/

/-- Body of the inner loop of `sort_doubles` (lines 219-223): compare the cells
`j` and `j + 1` and exchange them when the left one is greater. -/
def sort_doubles_body (arr : List α) (j : Nat) : Option (List α) := do
  let x ← arr[j]?
  let y ← arr[j + 1]?
  if x > y then
    let temp := x
    let arr1 := arr.set j y
    pure (arr1.set (j + 1) temp)
  else
    pure arr

/-- Inner loop of `sort_doubles` (line 218): `for (j = 0; j < n - i - 1; j++)`. -/
def sort_doubles_inner (n : Int) (arr : List α) (i : Nat) : Option (List α) :=
  (List.range (n - (i : Int) - 1).toNat).foldlM sort_doubles_body arr

/-- The function `sort_doubles (arr, n)` (line 216): the outer loop
`for (i = 0; i < n - 1; i++)` around the inner loop.  The result is the array
after the call. -/
def sort_doubles (arr : List α) (n : Int) : Option (List α) :=
  (List.range (n - 1).toNat).foldlM (sort_doubles_inner n) arr

/-! ## Percentile engine (`calculate_percentile`, lines 228-239) -/

/-- The function `calculate_percentile (sorted_data, count, percentile)`. -/
def calculate_percentile [FloorRing α] (sorted_data : List α) (count : Int) (percentile : α) :
    Option α :=
  let index : α := (percentile / 100) * (((count - 1 : Int)) : α)
  let lower : Int := ⌊index⌋
  let upper : Int := ⌈index⌉
  if lower = upper then
    readAt sorted_data lower
  else do
    let weight : α := index - (lower : α)
    let lo ← readAt sorted_data lower
    let hi ← readAt sorted_data upper
    pure (lo * (1 - weight) + hi * weight)

/-! ## Moment engine (`calculate_moments`, lines 241-265) -/

/-- The three accumulators of `calculate_moments` (line 242). -/
structure MomentSums (α : Type) where
  sum_sq : α
  sum_cube : α
  sum_quad : α

/-- Body of the loop of `calculate_moments` (lines 245-249). -/
def calculate_moments_body (data : List α) (mean : α) (acc : MomentSums α) (i : Nat) :
    Option (MomentSums α) := do
  let x ← data[i]?
  let diff := x - mean
  let diff_sq := diff * diff
  pure { sum_sq := acc.sum_sq + diff_sq
         sum_cube := acc.sum_cube + diff_sq * diff
         sum_quad := acc.sum_quad + diff_sq * diff_sq }

/-- The function `calculate_moments (data, count, mean, stats)`: the result is
the record behind `stats` after the call. -/
def calculate_moments (sqrt : α → α) (data : List α) (count : Int) (mean : α)
    (stats : Statistics α) : Option (Statistics α) := do
  let acc ← (List.range count.toNat).foldlM (calculate_moments_body data mean)
    { sum_sq := 0, sum_cube := 0, sum_quad := 0 }
  let variance := acc.sum_sq / (((count - 1 : Int)) : α)
  let std := sqrt variance
  let stats := { stats with variance := variance, std := std }
  if std > 0 then
    pure { stats with
      skewness := (acc.sum_cube / ((count : Int) : α)) / std ^ 3
      kurtosis := (acc.sum_quad / ((count : Int) : α)) / variance ^ 2 - 3 }
  else
    pure { stats with skewness := 0, kurtosis := 0 }

/-! ## Statistics aggregator (`compute_statistics`, lines 267-341) -/

/-- The variables of the first loop of `compute_statistics` (lines 271-280).
`bitrates` lists the cells of the fresh buffer written so far: the loop writes
cell `i` in its `i`-th round, so each write appends. -/
structure ScanState (α : Type) where
  bitrates : List α
  sum : α
  min : α
  max : α
  total_frames : Int
  total_chunk_size : α

/-- Body of the first loop of `compute_statistics` (lines 283-289). -/
def compute_statistics_scan (data : List (DataPoint α)) (s : ScanState α) (i : Nat) :
    Option (ScanState α) := do
  let d ← data[i]?
  let br := d.bitrate
  pure { bitrates := s.bitrates ++ [br]
         sum := s.sum + br
         min := if br < s.min then br else s.min
         max := if br > s.max then br else s.max
         total_frames := s.total_frames + d.frame_count
         total_chunk_size := s.total_chunk_size + d.chunk_size }

/-- The variables of the second loop of `compute_statistics` (lines 316-319). -/
structure TimeState (α : Type) where
  min_time : α
  max_time : α
  time_diff_sum : α
  time_diff_count : Int

/-- Body of the second loop of `compute_statistics` (lines 322-329). -/
def compute_statistics_time (data : List (DataPoint α)) (s : TimeState α) (i : Nat) :
    Option (TimeState α) := do
  let d ← data[i]?
  let t : α := ((d.chunk_index : Int) : α)
  let min_time := if t < s.min_time then t else s.min_time
  let max_time := if t > s.max_time then t else s.max_time
  if i > 0 then
    let prev ← data[i - 1]?
    pure { min_time := min_time
           max_time := max_time
           time_diff_sum := s.time_diff_sum + |t - ((prev.chunk_index : Int) : α)|
           time_diff_count := s.time_diff_count + 1 }
  else
    pure { min_time := min_time
           max_time := max_time
           time_diff_sum := s.time_diff_sum
           time_diff_count := s.time_diff_count }

/-- The function `compute_statistics (ds, stats)`.  It returns nothing in C:
the result here is the record behind `stats` after the call together with the
lines it logged.  `malloc_ok` tells whether the allocation of line 271
succeeds. -/
def compute_statistics [FloorRing α] (sqrt : α → α) (malloc_ok : Bool) (ds : Dataset α)
    (stats : Statistics α) : Option (Statistics α × List LogLine) :=
  if ds.count = 0 then
    pure (stats, [])
  else if !malloc_ok then
    pure (stats, [⟨"ERROR", "Memory allocation failed"⟩])
  else do
    let d0 ← ds.data[0]?
    let n := ds.count.toNat
    let s ← (List.range n).foldlM (compute_statistics_scan ds.data)
      { bitrates := [], sum := 0, min := d0.bitrate, max := d0.bitrate,
        total_frames := 0, total_chunk_size := 0 }
    let avg := s.sum / ((ds.count : Int) : α)
    let bitrates ← sort_doubles s.bitrates ds.count
    let median ← calculate_percentile bitrates ds.count 50
    let q1 ← calculate_percentile bitrates ds.count 25
    let q3 ← calculate_percentile bitrates ds.count 75
    let q5 ← calculate_percentile bitrates ds.count 5
    let q95 ← calculate_percentile bitrates ds.count 95
    let stats := { stats with
      max := s.max, min := s.min, avg := avg, median := median, q1 := q1, q3 := q3,
      q5 := q5, q95 := q95, iqr := q3 - q1, range := s.max - s.min }
    let stats ← calculate_moments sqrt bitrates ds.count avg stats
    let stats := { stats with
      cv := (stats.std / avg) * 100
      num_chunks := ds.count
      total_frames := s.total_frames
      avg_chunk_size := s.total_chunk_size / ((ds.count : Int) : α) }
    let t ← (List.range n).foldlM (compute_statistics_time ds.data)
      { min_time := ((d0.chunk_index : Int) : α), max_time := ((d0.chunk_index : Int) : α),
        time_diff_sum := 0, time_diff_count := 0 }
    let stats := { stats with
      total_duration := t.max_time - t.min_time + 1
      time_resolution :=
        if t.time_diff_count > 0 then t.time_diff_sum / ((t.time_diff_count : Int) : α) else 1 }
    let stats := { stats with stability_index := 1 - stats.std / stats.avg }
    let stats := { stats with peak_to_avg_ratio := stats.max / stats.avg }
    pure (stats, [⟨"INFO", "Statistics computed successfully"⟩])

/-! ## Quality heuristics (`get_quality_assessment`, lines 343-357) -/

/-- The function `get_quality_assessment (stats)`: the text left in the static
buffer (each text is shorter than the buffer of 256 bytes). -/
def get_quality_assessment (stats : Statistics α) : String :=
  if stats.stability_index > 0.8 ∧ stats.cv < 10 then
    "EXCELLENT - Very stable bitrate"
  else if stats.stability_index > 0.6 ∧ stats.cv < 20 then
    "GOOD - Reasonably stable"
  else if stats.stability_index > 0.4 ∧ stats.cv < 40 then
    "MODERATE - Some fluctuation"
  else
    "POOR - Highly variable"

/-! ## Recommendations (`get_recommendations`, lines 359-378) -/

/-- The function `get_recommendations (stats)`: the text left in the static
buffer.  `strcat` is `++`; the longest result has fewer bytes than the buffer
of 512. -/
def get_recommendations (stats : Statistics α) : String :=
  let recs := ""
  let recs := if stats.cv > 30 then recs ++ "• Consider CBR encoding\n" else recs
  let recs :=
    if stats.peak_to_avg_ratio > 3 then recs ++ "• Review rate control settings\n" else recs
  let recs := if stats.std > stats.avg * 0.5 then recs ++ "• Check for scene complexity\n" else recs
  if recs.length = 0 then "• Current settings appear optimal\n" else recs

/-! ## Entry point (`main`, lines 495-506) -/

/-- What `main` has done when it returns or reaches the report writer. -/
structure MainOutcome (α : Type) where
  /-- The value `main` returns: `1` on an empty dataset; otherwise `main` goes on
  to write the report and returns `0`. -/
  exit_status : Int
  /-- The lines logged from line 495 on. -/
  log : List LogLine
  /-- The record handed to `generate_text_report`, if `main` gets there. -/
  reported : Option (Statistics α)

/-- Lines 495-506 of `main`, from the emptiness check on the loaded dataset to
the call of `generate_text_report`.  Writing the report and the summary is
file output and is not modelled. -/
def main_analysis [FloorRing α] (sqrt : α → α) (malloc_ok : Bool) (ds : Dataset α) :
    Option (MainOutcome α) :=
  if ds.count = 0 then
    pure { exit_status := 1, log := [⟨"ERROR", "No valid data points loaded"⟩], reported := none }
  else do
    let r ← compute_statistics sqrt malloc_ok ds Statistics.zeroed
    pure { exit_status := 0
           log := [⟨"INFO", "Computing statistics..."⟩] ++ r.2 ++ [⟨"INFO", "Generating report..."⟩]
           reported := some r.1 }

/-! ## The arithmetic of `double` (IEEE 754 binary64)

The definitions above compute over an exact field.  The definitions of this
section repeat `calculate_percentile`, `calculate_moments` and
`compute_statistics` with the rounding of `double`.  A finite `double` is the
rational number it stands for; an operation is the exact operation followed by
the rounding to the nearest number with a significand of 53 bits, ties to even,
and every operation of the source is rounded on its own (round-to-nearest mode,
no fused multiply-add, no extended precision).  A result that is neither zero
nor a normal finite `double` (an overflow, a subnormal result, a division by
zero) is `none`: such a run is outside this model.  An `int` converted to
`double` keeps its value.  Comparisons, the sorter and the integer parts are
those of the exact model. -/

namespace Binary64

/-- The integer nearest to `a / b`, the even one of two equally near. -/
def roundDiv (a b : Nat) : Nat :=
  let k := a / b
  let r := a % b
  if 2 * r < b then k else if b < 2 * r then k + 1 else if k % 2 = 0 then k else k + 1

/-- The number of halvings that bring `n` below `2`, at most `fuel` of them. -/
def halvings : Nat → Nat → Nat
  | 0, _ => 0
  | fuel + 1, n => if n < 2 then 0 else halvings fuel (n / 2) + 1

/-- The binary logarithm of `n`, rounded down (`0` for `n = 0`). -/
def log2 (n : Nat) : Nat := halvings n n

/-- The binary exponent of the positive rational `n / d`: the `E` with
`2 ^ E ≤ n / d < 2 ^ (E + 1)`. -/
def exponent (n d : Nat) : Int :=
  let l : Int := (log2 n : Int) - (log2 d : Int)
  if (if 0 ≤ l then d * 2 ^ l.toNat ≤ n else d ≤ n * 2 ^ (-l).toNat) then l else l - 1

/-- The rational `m * 2 ^ e`. -/
def scale (m : Nat) (e : Int) : ℚ :=
  if 0 ≤ e then ((m * 2 ^ e.toNat : Nat) : ℚ) else mkRat m (2 ^ (-e).toNat)

/-- Rounding of a rational to the nearest `double`, ties to even: the
significand is the nearest integer to `|q| / 2 ^ (E - 52)` for the exponent `E`
of `|q|`.  No value below `2 ^ (-1022)` or from `2 ^ 1024` on. -/
def roundNearestEven (q : ℚ) : Option ℚ :=
  if q = 0 then some 0
  else
    let n := q.num.natAbs
    let d := q.den
    let E := exponent n d
    let e := E - 52
    let m := if 0 ≤ e then roundDiv n (d * 2 ^ e.toNat) else roundDiv (n * 2 ^ (-e).toNat) d
    let r := scale m e
    if E < -1022 ∨ ((2 ^ 1024 : Nat) : ℚ) ≤ r then none
    else some (if q < 0 then -r else r)

/-- The sum `a + b` of two `double`s. -/
def add (a b : ℚ) : Option ℚ := roundNearestEven (a + b)

/-- The difference `a - b` of two `double`s. -/
def sub (a b : ℚ) : Option ℚ := roundNearestEven (a - b)

/-- The product `a * b` of two `double`s. -/
def mul (a b : ℚ) : Option ℚ := roundNearestEven (a * b)

/-- The quotient `a / b` of two `double`s. -/
def div (a b : ℚ) : Option ℚ := if b = 0 then none else roundNearestEven (a / b)

/-- The integer square root by bisection on the bits `b - 1, ..., 0`: the
greatest `r` below `2 ^ b` with `r * r ≤ n`, started from `r`. -/
def isqrtBits : Nat → Nat → Nat → Nat
  | 0, _, r => r
  | b + 1, n, r => if (r + 2 ^ b) * (r + 2 ^ b) ≤ n then isqrtBits b n (r + 2 ^ b)
                   else isqrtBits b n r

/-- The integer square root: the greatest `r` with `r * r ≤ n`. -/
def isqrt (n : Nat) : Nat := isqrtBits (log2 n / 2 + 1) n 0

/-- The function `sqrt` of `math.h`, correctly rounded as IEEE 754 requires: for
the exponent `E` of `a` the result has the exponent `⌊E / 2⌋`, and its
significand is the integer nearest to `√(a / 4 ^ e)` with `e = ⌊E / 2⌋ - 52`,
which is `(⌊√(4 a / 4 ^ e)⌋ + 1) / 2` rounded down. -/
def sqrt (a : ℚ) : Option ℚ :=
  if a < 0 then none
  else if a = 0 then some 0
  else
    let n := a.num.natAbs
    let d := a.den
    let e := exponent n d / 2 - 52
    let y : ℚ := 4 * a / scale 1 (2 * e)
    let m := (isqrt (y.num.natAbs / y.den) + 1) / 2
    roundNearestEven (scale m e)

/-- The function `pow (x, k)` of `math.h` for a literal whole exponent `k`,
taken as correctly rounded.  It feeds `skewness` and `kurtosis` only. -/
def pow (x : ℚ) (k : Nat) : Option ℚ := roundNearestEven (x ^ k)

/-- The function `calculate_percentile` (lines 228-239) in `double`
arithmetic. -/
def calculate_percentile (sorted_data : List ℚ) (count : Int) (percentile : ℚ) : Option ℚ := do
  let fraction ← div percentile 100
  let index ← mul fraction (((count - 1 : Int)) : ℚ)
  let lower : Int := ⌊index⌋
  let upper : Int := ⌈index⌉
  if lower = upper then
    readAt sorted_data lower
  else do
    let weight ← sub index (lower : ℚ)
    let lo ← readAt sorted_data lower
    let hi ← readAt sorted_data upper
    let rest ← sub 1 weight
    let left ← mul lo rest
    let right ← mul hi weight
    add left right

/-- Body of the loop of `calculate_moments` (lines 245-249) in `double`
arithmetic. -/
def calculate_moments_body (data : List ℚ) (mean : ℚ) (acc : MomentSums ℚ) (i : Nat) :
    Option (MomentSums ℚ) := do
  let x ← data[i]?
  let diff ← sub x mean
  let diff_sq ← mul diff diff
  let sum_sq ← add acc.sum_sq diff_sq
  let cube ← mul diff_sq diff
  let sum_cube ← add acc.sum_cube cube
  let quad ← mul diff_sq diff_sq
  let sum_quad ← add acc.sum_quad quad
  pure { sum_sq := sum_sq, sum_cube := sum_cube, sum_quad := sum_quad }

/-- The function `calculate_moments` (lines 241-265) in `double` arithmetic. -/
def calculate_moments (data : List ℚ) (count : Int) (mean : ℚ) (stats : Statistics ℚ) :
    Option (Statistics ℚ) := do
  let acc ← (List.range count.toNat).foldlM (calculate_moments_body data mean)
    { sum_sq := 0, sum_cube := 0, sum_quad := 0 }
  let variance ← div acc.sum_sq (((count - 1 : Int)) : ℚ)
  let std ← sqrt variance
  let stats := { stats with variance := variance, std := std }
  if std > 0 then
    let third ← div acc.sum_cube ((count : Int) : ℚ)
    let cube ← pow std 3
    let skewness ← div third cube
    let fourth ← div acc.sum_quad ((count : Int) : ℚ)
    let square ← pow variance 2
    let ratio ← div fourth square
    let kurtosis ← sub ratio 3
    pure { stats with skewness := skewness, kurtosis := kurtosis }
  else
    pure { stats with skewness := 0, kurtosis := 0 }

/-- Body of the first loop of `compute_statistics` (lines 283-289) in `double`
arithmetic. -/
def compute_statistics_scan (data : List (DataPoint ℚ)) (s : ScanState ℚ) (i : Nat) :
    Option (ScanState ℚ) := do
  let d ← data[i]?
  let br := d.bitrate
  let sum ← add s.sum br
  let total_chunk_size ← add s.total_chunk_size d.chunk_size
  pure { bitrates := s.bitrates ++ [br]
         sum := sum
         min := if br < s.min then br else s.min
         max := if br > s.max then br else s.max
         total_frames := s.total_frames + d.frame_count
         total_chunk_size := total_chunk_size }

/-- Body of the second loop of `compute_statistics` (lines 322-329) in `double`
arithmetic. -/
def compute_statistics_time (data : List (DataPoint ℚ)) (s : TimeState ℚ) (i : Nat) :
    Option (TimeState ℚ) := do
  let d ← data[i]?
  let t : ℚ := ((d.chunk_index : Int) : ℚ)
  let min_time := if t < s.min_time then t else s.min_time
  let max_time := if t > s.max_time then t else s.max_time
  if i > 0 then
    let prev ← data[i - 1]?
    let step ← sub t ((prev.chunk_index : Int) : ℚ)
    let time_diff_sum ← add s.time_diff_sum |step|
    pure { min_time := min_time
           max_time := max_time
           time_diff_sum := time_diff_sum
           time_diff_count := s.time_diff_count + 1 }
  else
    pure { min_time := min_time
           max_time := max_time
           time_diff_sum := s.time_diff_sum
           time_diff_count := s.time_diff_count }

/-- Lines 292-305 of `compute_statistics` in `double` arithmetic: the average,
the sorted copy and the order statistics.  The result is the average, the
sorted array and the record. -/
def compute_statistics_order (s : ScanState ℚ) (count : Int) (stats : Statistics ℚ) :
    Option (ℚ × List ℚ × Statistics ℚ) := do
  let avg ← div s.sum ((count : Int) : ℚ)
  let bitrates ← sort_doubles s.bitrates count
  let median ← calculate_percentile bitrates count 50
  let q1 ← calculate_percentile bitrates count 25
  let q3 ← calculate_percentile bitrates count 75
  let q5 ← calculate_percentile bitrates count 5
  let q95 ← calculate_percentile bitrates count 95
  let iqr ← sub q3 q1
  let range ← sub s.max s.min
  pure (avg, bitrates, { stats with
    max := s.max, min := s.min, avg := avg, median := median, q1 := q1, q3 := q3,
    q5 := q5, q95 := q95, iqr := iqr, range := range })

/-- Lines 309-313 of `compute_statistics` in `double` arithmetic. -/
def compute_statistics_volume (s : ScanState ℚ) (count : Int) (avg : ℚ)
    (stats : Statistics ℚ) : Option (Statistics ℚ) := do
  let ratio ← div stats.std avg
  let cv ← mul ratio 100
  let avg_chunk_size ← div s.total_chunk_size ((count : Int) : ℚ)
  pure { stats with
    cv := cv
    num_chunks := count
    total_frames := s.total_frames
    avg_chunk_size := avg_chunk_size }

/-- Lines 332-333 of `compute_statistics` in `double` arithmetic. -/
def compute_statistics_duration (t : TimeState ℚ) (stats : Statistics ℚ) :
    Option (Statistics ℚ) := do
  let span ← sub t.max_time t.min_time
  let total_duration ← add span 1
  let time_resolution ←
    if t.time_diff_count > 0 then div t.time_diff_sum ((t.time_diff_count : Int) : ℚ)
    else pure 1
  pure { stats with
    total_duration := total_duration
    time_resolution := time_resolution }

/-- Lines 335-336 of `compute_statistics` in `double` arithmetic. -/
def compute_statistics_ratios (stats : Statistics ℚ) : Option (Statistics ℚ) := do
  let spread ← div stats.std stats.avg
  let stability_index ← sub 1 spread
  let stats := { stats with stability_index := stability_index }
  let peak_to_avg_ratio ← div stats.max stats.avg
  pure { stats with peak_to_avg_ratio := peak_to_avg_ratio }

/-- The function `compute_statistics` (lines 267-341) in `double` arithmetic. -/
def compute_statistics (malloc_ok : Bool) (ds : Dataset ℚ) (stats : Statistics ℚ) :
    Option (Statistics ℚ × List LogLine) :=
  if ds.count = 0 then
    pure (stats, [])
  else if !malloc_ok then
    pure (stats, [⟨"ERROR", "Memory allocation failed"⟩])
  else do
    let d0 ← ds.data[0]?
    let n := ds.count.toNat
    let s ← (List.range n).foldlM (compute_statistics_scan ds.data)
      { bitrates := [], sum := 0, min := d0.bitrate, max := d0.bitrate,
        total_frames := 0, total_chunk_size := 0 }
    let (avg, bitrates, stats) ← compute_statistics_order s ds.count stats
    let stats ← calculate_moments bitrates ds.count avg stats
    let stats ← compute_statistics_volume s ds.count avg stats
    let t ← (List.range n).foldlM (compute_statistics_time ds.data)
      { min_time := ((d0.chunk_index : Int) : ℚ), max_time := ((d0.chunk_index : Int) : ℚ),
        time_diff_sum := 0, time_diff_count := 0 }
    let stats ← compute_statistics_duration t stats
    let stats ← compute_statistics_ratios stats
    pure (stats, [⟨"INFO", "Statistics computed successfully"⟩])

end Binary64

/-! ## Auxiliary notions used in the proofs -/

/-- Cell `p` of `l`, when it exists, is at most `c`. -/
def cellLe (l : List α) (p : Nat) (c : α) : Prop :=
  ∀ x, l[p]? = some x → x ≤ c

/-- Cell `p` of `l` is at most cell `q` of `l`, when both exist. -/
def cellsLe (l : List α) (p q : Nat) : Prop :=
  ∀ x y, l[p]? = some x → l[q]? = some y → x ≤ y

/-- The value `calculate_percentile` returns once its real index has been
computed (lines 230-238). -/
def percentileAt [FloorRing α] (sorted_data : List α) (index : α) : Option α :=
  let lower : Int := ⌊index⌋
  let upper : Int := ⌈index⌉
  if lower = upper then
    readAt sorted_data lower
  else do
    let weight : α := index - (lower : α)
    let lo ← readAt sorted_data lower
    let hi ← readAt sorted_data upper
    pure (lo * (1 - weight) + hi * weight)

/-- One round of the loop of `calculate_moments` on the value `x` of the cell
it reads. -/
def momentStep (mean : α) (acc : MomentSums α) (x : α) : MomentSums α :=
  { sum_sq := acc.sum_sq + (x - mean) * (x - mean)
    sum_cube := acc.sum_cube + (x - mean) * (x - mean) * (x - mean)
    sum_quad := acc.sum_quad + (x - mean) * (x - mean) * ((x - mean) * (x - mean)) }

/-- The dataset of the known distribution: five records with the bitrates
`1000, 2000, 3000, 4000, 5000`, chunk indices `0` to `4`, no frames and no
size; the timestamps `ts` and the capacity are free. -/
def knownDataset (ts : Fin 5 → α) (capacity : Int) : Dataset α :=
  { data := [⟨0, 1000, 0, 0, ts 0⟩, ⟨1, 2000, 0, 0, ts 1⟩, ⟨2, 3000, 0, 0, ts 2⟩,
             ⟨3, 4000, 0, 0, ts 3⟩, ⟨4, 5000, 0, 0, ts 4⟩]
    count := 5
    capacity := capacity }

/-- One round of the first loop of `compute_statistics` on the record `d` of
the cell it reads. -/
def scanStep (s : ScanState α) (d : DataPoint α) : ScanState α :=
  { bitrates := s.bitrates ++ [d.bitrate]
    sum := s.sum + d.bitrate
    min := if d.bitrate < s.min then d.bitrate else s.min
    max := if d.bitrate > s.max then d.bitrate else s.max
    total_frames := s.total_frames + d.frame_count
    total_chunk_size := s.total_chunk_size + d.chunk_size }

/-- The running minimum `if (x < min) min = x` over the values `l`, started
at `m0`. -/
def lowest (m0 : α) (l : List α) : α :=
  l.foldl (fun m x => if x < m then x else m) m0

/-- The running maximum `if (x > max) max = x` over the values `l`, started
at `m0`. -/
def highest (m0 : α) (l : List α) : α :=
  l.foldl (fun m x => if x > m then x else m) m0

/-- The record `compute_statistics` assembles (lines 296-336) from the results
of its stages: the number of records, the sum, minimum and maximum of the
bitrates, the two totals, the sorted bitrates, the five percentiles and the
final state of the time loop. -/
def statisticsRecord (sqrt : α → α) (count : Int) (sum lo hi : α) (total_frames : Int)
    (total_chunk_size : α) (sorted : List α) (median q1 q3 q5 q95 : α) (t : TimeState α) :
    Statistics α :=
  { max := hi
    min := lo
    avg := sum / ((count : Int) : α)
    median := median
    std := sqrt ((sorted.map (fun v => (v - sum / ((count : Int) : α)) ^ 2)).sum
      / (((count - 1 : Int)) : α))
    variance := (sorted.map (fun v => (v - sum / ((count : Int) : α)) ^ 2)).sum
      / (((count - 1 : Int)) : α)
    q1 := q1
    q3 := q3
    q5 := q5
    q95 := q95
    iqr := q3 - q1
    range := hi - lo
    cv := sqrt ((sorted.map (fun v => (v - sum / ((count : Int) : α)) ^ 2)).sum
      / (((count - 1 : Int)) : α)) / (sum / ((count : Int) : α)) * 100
    skewness :=
      if sqrt ((sorted.map (fun v => (v - sum / ((count : Int) : α)) ^ 2)).sum
          / (((count - 1 : Int)) : α)) > 0 then
        ((sorted.map (fun v => (v - sum / ((count : Int) : α)) ^ 3)).sum / ((count : Int) : α))
          / sqrt ((sorted.map (fun v => (v - sum / ((count : Int) : α)) ^ 2)).sum
            / (((count - 1 : Int)) : α)) ^ 3
      else 0
    kurtosis :=
      if sqrt ((sorted.map (fun v => (v - sum / ((count : Int) : α)) ^ 2)).sum
          / (((count - 1 : Int)) : α)) > 0 then
        ((sorted.map (fun v => (v - sum / ((count : Int) : α)) ^ 4)).sum / ((count : Int) : α))
          / ((sorted.map (fun v => (v - sum / ((count : Int) : α)) ^ 2)).sum
            / (((count - 1 : Int)) : α)) ^ 2 - 3
      else 0
    num_chunks := count
    total_duration := t.max_time - t.min_time + 1
    total_frames := total_frames
    avg_chunk_size := total_chunk_size / ((count : Int) : α)
    time_resolution :=
      if t.time_diff_count > 0 then t.time_diff_sum / ((t.time_diff_count : Int) : α) else 1
    stability_index := 1 - sqrt ((sorted.map (fun v => (v - sum / ((count : Int) : α)) ^ 2)).sum
      / (((count - 1 : Int)) : α)) / (sum / ((count : Int) : α))
    peak_to_avg_ratio := hi / (sum / ((count : Int) : α)) }

/-- The chunk index of record `i` as a `double`, `0` outside the store. -/
def chunkAt (data : List (DataPoint α)) (i : Nat) : α :=
  match data[i]? with
  | some d => ((d.chunk_index : Int) : α)
  | none => 0

/-- What round `i` of the second loop of `compute_statistics` adds to
`time_diff_sum`: the distance to the chunk index of the record before, nothing
in round `0`. -/
def timeDiff (data : List (DataPoint α)) (i : Nat) : α :=
  if i > 0 then |chunkAt data i - chunkAt data (i - 1)| else 0

/-- What the proofs use of the `sqrt` of `math.h`: on a non-negative argument
the result is non-negative and its square is the argument. -/
def SquareRoot (sqrt : α → α) : Prop :=
  ∀ x, 0 ≤ x → 0 ≤ sqrt x ∧ sqrt x * sqrt x = x

/-- The sum over `i = 1 .. n-1` of `|c[i] - c[i-1]|` for a list `c` of `n`
chunk indices, as the specification words it. -/
def adjacentDiffSum (c : List Int) : Int :=
  ((List.range' 1 (c.length - 1)).map (fun i => |c.getD i 0 - c.getD (i - 1) 0|)).sum

/-- A small dataset for instances of the theorems: three records with the chunk
indices `0, 3, 1` and the bitrates `100, 300, 200`. -/
def sampleDataset : Dataset α :=
  { data := [⟨0, 100, 30, 64, 0⟩, ⟨3, 300, 30, 64, 1⟩, ⟨1, 200, 30, 64, 2⟩]
    count := 3
    capacity := 10000 }

/-- The value of the decimal digits a text starts with; it stands for `atoi`
and `atof` in the instances of the theorems on `load_csv`. -/
def decimalValue (s : List Char) : Nat :=
  (s.takeWhile Char.isDigit).foldl (fun n c => 10 * n + (c.toNat - 48)) 0

/-- A small CSV file: a header with the two required columns and three data
lines, the second with the bitrate `0`. -/
def sampleCsv : List Char :=
  "chunk_index,bitrate_per_chunk\n0,100\n1,0\n2,300\n".toList

/-- A CSV file whose data line has an empty field between two commas, in the
optional column `frame_count`. -/
def emptyFieldCsv : List Char :=
  "chunk_index,frame_count,bitrate_per_chunk\n7,,500\n".toList

/-- The same file with text that is no number in the optional column. -/
def textFieldCsv : List Char :=
  "chunk_index,frame_count,bitrate_per_chunk\n7,abc,500\n".toList

/-- Two records with the bitrate `3`. -/
def equalPair : Dataset ℚ :=
  { data := [⟨0, 3, 0, 0, 0⟩, ⟨1, 3, 0, 0, 0⟩]
    count := 2
    capacity := 10000 }

/-- The `double` nearest to `0.1`, printed `0.1`:
`3602879701896397 / 2 ^ 55`. -/
def tenth : ℚ := 3602879701896397 / 36028797018963968

/-- Three records with the bitrate `0.1`. -/
def threeTenths : Dataset ℚ :=
  { data := [⟨0, tenth, 0, 0, 0⟩, ⟨1, tenth, 0, 0, 0⟩, ⟨2, tenth, 0, 0, 0⟩]
    count := 3
    capacity := 10000 }

/-- Three records with the bitrates `900, 900, 1069`. -/
def unevenTriple : Dataset ℚ :=
  { data := [⟨0, 900, 0, 0, 0⟩, ⟨1, 900, 0, 0, 0⟩, ⟨2, 1069, 0, 0, 0⟩]
    count := 3
    capacity := 10000 }

/-! ## Proofs: sorter -/

theorem swap_adjacent_perm {β : Type} (l : List β) (j : Nat) (h : j + 1 < l.length) :
    ((l.set j (l[j + 1])).set (j + 1) (l[j])).Perm l := by
  induction l generalizing j with
  | nil => simp at h
  | cons a t ih =>
    cases j with
    | zero =>
      cases t with
      | nil => simp at h
      | cons b t => simpa using List.Perm.swap a b t
    | succ j =>
      have h2 : j + 1 < t.length := by simpa using h
      simpa using ih j h2

/-- One step of the inner loop inside the array: the result in closed form. -/
theorem sort_doubles_body_eq (l : List α) (j : Nat) (h : j + 1 < l.length) :
    sort_doubles_body l j =
      some (if l[j] > l[j + 1] then (l.set j (l[j + 1])).set (j + 1) (l[j]) else l) := by
  have h1 : l[j]? = some l[j] := List.getElem?_eq_getElem (by omega)
  have h2 : l[j + 1]? = some l[j + 1] := List.getElem?_eq_getElem h
  unfold sort_doubles_body
  rw [h1, h2]
  by_cases hc : l[j] > l[j + 1] <;> simp [hc]

theorem getElem?_swap_adjacent {β : Type} (l : List β) (j : Nat) (h : j + 1 < l.length)
    (p : Nat) :
    ((l.set j (l[j + 1])).set (j + 1) (l[j]))[p]? =
      if p = j + 1 then some l[j] else if p = j then some l[j + 1] else l[p]? := by
  rw [List.getElem?_set]
  by_cases h1 : j + 1 = p
  · subst h1
    simp
    omega
  · rw [if_neg h1, List.getElem?_set]
    by_cases h2 : j = p
    · subst h2
      simp
      omega
    · rw [if_neg h2, if_neg (fun h => h1 h.symm), if_neg (fun h => h2 h.symm)]

/-- Effect of the first `k` rounds of the inner loop on an array with more than
`k` cells. -/
theorem sort_doubles_rounds (l : List α) (k : Nat) (hk : k < l.length) :
    ∃ l', (List.range k).foldlM sort_doubles_body l = some l' ∧ l'.length = l.length ∧
      l'.Perm l ∧ (∀ p, p ≤ k → cellsLe l' p k) ∧ (∀ p, k < p → l'[p]? = l[p]?) ∧
      (∀ M c, k ≤ M → (∀ p, p ≤ M → cellLe l p c) → ∀ p, p ≤ M → cellLe l' p c) := by
  induction k with
  | zero =>
    refine ⟨l, by simp, rfl, List.Perm.refl _, ?_, fun _ _ => rfl, fun _ _ _ h => h⟩
    intro p hp x y hx hy
    have : p = 0 := by omega
    subst this
    rw [hx] at hy
    exact le_of_eq (Option.some.inj hy)
  | succ k ih =>
    obtain ⟨l1, hrun, hlen, hperm, hmax, hrest, hbound⟩ := ih (by omega)
    have hk1 : k + 1 < l1.length := by omega
    have hg0 : l1[k]? = some l1[k] := List.getElem?_eq_getElem (by omega)
    have hg1 : l1[k + 1]? = some l1[k + 1] := List.getElem?_eq_getElem hk1
    rw [List.range_succ, List.foldlM_append, hrun]
    simp only [Option.bind_eq_bind, Option.some_bind, List.foldlM_cons, List.foldlM_nil,
      sort_doubles_body_eq l1 k hk1]
    by_cases hc : l1[k] > l1[k + 1]
    · rw [if_pos hc]
      refine ⟨_, by simp, by simpa using hlen, (swap_adjacent_perm l1 k hk1).trans hperm,
        ?_, ?_, ?_⟩
      · intro p hp x y hx hy
        rw [getElem?_swap_adjacent l1 k hk1] at hx hy
        simp only [if_true] at hy
        cases Option.some.inj hy
        by_cases h1 : p = k + 1
        · rw [if_pos h1] at hx
          exact le_of_eq (Option.some.inj hx).symm
        · rw [if_neg h1] at hx
          by_cases h2 : p = k
          · rw [if_pos h2] at hx
            cases Option.some.inj hx
            exact le_of_lt hc
          · rw [if_neg h2] at hx
            exact hmax p (by omega) x _ hx hg0
      · intro p hp
        rw [getElem?_swap_adjacent l1 k hk1, if_neg (by omega), if_neg (by omega)]
        exact hrest p (by omega)
      · intro M c hM hall p hp x hx
        have hb := hbound M c (by omega) hall
        rw [getElem?_swap_adjacent l1 k hk1] at hx
        by_cases h1 : p = k + 1
        · rw [if_pos h1] at hx
          exact hb k (by omega) x (hg0.trans hx)
        · rw [if_neg h1] at hx
          by_cases h2 : p = k
          · rw [if_pos h2] at hx
            exact hb (k + 1) (by omega) x (hg1.trans hx)
          · rw [if_neg h2] at hx
            exact hb p hp x hx
    · rw [if_neg hc]
      refine ⟨l1, by simp, hlen, hperm, ?_, fun p hp => hrest p (by omega),
        fun M c hM hall => hbound M c (by omega) hall⟩
      intro p hp x y hx hy
      rw [hg1] at hy
      cases Option.some.inj hy
      by_cases h1 : p = k + 1
      · subst h1
        rw [hg1] at hx
        exact le_of_eq (Option.some.inj hx).symm
      · exact le_trans (hmax p (by omega) x _ hx hg0) (not_lt.mp hc)

/-- Effect of the first `i` passes of the outer loop: the last `i` cells are in
their final place. -/
theorem sort_doubles_passes (l : List α) (i : Nat) (hi : i + 1 ≤ l.length) :
    ∃ l', (List.range i).foldlM (sort_doubles_inner (l.length : Int)) l = some l' ∧
      l'.length = l.length ∧ l'.Perm l ∧
      (∀ p q, p < q → l.length ≤ q + i → cellsLe l' p q) := by
  induction i with
  | zero =>
    refine ⟨l, by simp, rfl, List.Perm.refl _, ?_⟩
    intro p q _ hq x y _ hy
    have : l[q]? = none := List.getElem?_eq_none (by omega)
    rw [this] at hy
    cases hy
  | succ i ih =>
    obtain ⟨l1, hrun, hlen, hperm, hinv⟩ := ih (by omega)
    have hK : ((l.length : Int) - (i : Int) - 1).toNat = l.length - i - 1 := by omega
    obtain ⟨l2, hrun2, hlen2, hperm2, hmax, hrest, hbound⟩ :=
      sort_doubles_rounds l1 (l.length - i - 1) (by omega)
    rw [List.range_succ, List.foldlM_append, hrun]
    simp only [Option.bind_eq_bind, Option.some_bind, List.foldlM_cons, List.foldlM_nil,
      sort_doubles_inner, hK, hrun2]
    refine ⟨l2, by simp, hlen2.trans hlen, hperm2.trans hperm, ?_⟩
    intro p q hpq hq x y hx hy
    by_cases hqK : q = l.length - i - 1
    · subst hqK
      exact hmax p (by omega) x y hx hy
    · have hq1 : l.length - i - 1 < q := by omega
      rw [hrest q hq1] at hy
      by_cases hpK : p ≤ l.length - i - 1
      · refine hbound (l.length - i - 1) y le_rfl ?_ p hpK x hx
        intro p' hp' x' hx'
        exact hinv p' q (by omega) (by omega) x' y hx' hy
      · rw [hrest p (by omega)] at hx
        exact hinv p q hpq (by omega) x y hx hy

/-- The sorter is correct: called with the length of the array it stays inside
the array and returns a sorted permutation of it. -/
theorem sort_doubles_correct (arr : List α) :
    ∃ out, sort_doubles arr (arr.length : Int) = some out ∧ out.Perm arr ∧
      out.Sorted (· ≤ ·) := by
  by_cases h0 : arr.length = 0
  · have : arr = [] := List.length_eq_zero.mp h0
    subst this
    exact ⟨[], by simp [sort_doubles], List.Perm.refl _, List.sorted_nil⟩
  · obtain ⟨out, hrun, hlen, hperm, hinv⟩ := sort_doubles_passes arr (arr.length - 1) (by omega)
    have hN : ((arr.length : Int) - 1).toNat = arr.length - 1 := by omega
    refine ⟨out, by rw [sort_doubles, hN, hrun], hperm, ?_⟩
    rw [List.Sorted, List.pairwise_iff_getElem]
    intro p q hp hq hpq
    exact hinv p q hpq (by omega) _ _ (List.getElem?_eq_getElem hp) (List.getElem?_eq_getElem hq)

/-- C1: for every array `arr` (any length, zero included) `sort_doubles`, called
with the length of the array, runs without leaving the array and leaves in it
a permutation of the input (the same multiset of values) in non-decreasing
order. -/
theorem sort_doubles_sorted_perm (arr : List α) :
    ∃ out, sort_doubles arr (arr.length : Int) = some out ∧ out.Perm arr ∧
      out.Sorted (· ≤ ·) :=
  sort_doubles_correct arr

/-- On an array that is already sorted the sorter changes nothing. -/
theorem sort_doubles_of_sorted (arr : List α) (hs : arr.Sorted (· ≤ ·)) :
    sort_doubles arr (arr.length : Int) = some arr := by
  obtain ⟨out, hrun, hperm, hsorted⟩ := sort_doubles_correct arr
  rw [hrun, List.eq_of_perm_of_sorted hperm hsorted hs]

/-- Two arrays with the same values sort to the same array. -/
theorem sort_doubles_perm (a b : List α) (h : a.Perm b) :
    ∃ out, sort_doubles a (a.length : Int) = some out ∧
      sort_doubles b (b.length : Int) = some out ∧ out.Perm a ∧ out.Sorted (· ≤ ·) := by
  obtain ⟨o1, hr1, hp1, hs1⟩ := sort_doubles_correct a
  obtain ⟨o2, hr2, hp2, hs2⟩ := sort_doubles_correct b
  have : o1 = o2 := List.eq_of_perm_of_sorted (hp1.trans (h.trans hp2.symm)) hs1 hs2
  subst this
  exact ⟨o1, hr1, hr2, hp1, hs1⟩

/-! ## Proofs: percentile engine -/

theorem calculate_percentile_eq [FloorRing α] (x : List α) (count : Int) (p : α) :
    calculate_percentile x count p = percentileAt x ((p / 100) * (((count - 1 : Int)) : α)) :=
  rfl

theorem readAt_natCast {β : Type} (a : List β) (k : Nat) : readAt a (k : Int) = a[k]? := by
  simp [readAt]

/-- An index that is a whole number `k` inside the array selects cell `k`. -/
theorem percentileAt_natCast [FloorRing α] (x : List α) (k : Nat) (hk : k < x.length) :
    percentileAt x (k : α) = some x[k] := by
  have h1 : ⌊(k : α)⌋ = (k : Int) := by simp
  have h2 : ⌈(k : α)⌉ = (k : Int) := by simp
  simp only [percentileAt, h1, h2, if_true, readAt_natCast]
  exact List.getElem?_eq_getElem hk

/-- C3: for every non-empty array `x` (sorted or not), with `n` its length,
`calculate_percentile (x, n, 0)` is `x[0]` and `calculate_percentile (x, n, 100)`
is `x[n-1]`. -/
theorem calculate_percentile_boundary [FloorRing α] (x : List α) (hn : 0 < x.length) :
    calculate_percentile x (x.length : Int) 0 = some x[0] ∧
      calculate_percentile x (x.length : Int) 100 = some x[x.length - 1] := by
  constructor
  · rw [calculate_percentile_eq]
    have h : ((0 : α) / 100) * ((((x.length : Int) - 1 : Int)) : α) = ((0 : Nat) : α) := by simp
    rw [h]
    exact percentileAt_natCast x 0 hn
  · rw [calculate_percentile_eq]
    have h : ((100 : α) / 100) * ((((x.length : Int) - 1 : Int)) : α)
        = ((x.length - 1 : Nat) : α) := by
      rw [Nat.cast_sub (by omega)]
      simp
    rw [h]
    exact percentileAt_natCast x (x.length - 1) (by omega)

theorem calculate_percentile_boundary_witness :
    calculate_percentile [(3 : ℚ), 5, 8] (([(3 : ℚ), 5, 8].length : Nat) : Int) 0 = some 3 ∧
      calculate_percentile [(3 : ℚ), 5, 8] (([(3 : ℚ), 5, 8].length : Nat) : Int) 100 = some 8 :=
  calculate_percentile_boundary [(3 : ℚ), 5, 8] (by decide)

/-- C4: for every array `x` of odd length `n` (sorted or not),
`calculate_percentile (x, n, 50)` is the middle cell `x[(n-1)/2]` itself, with
no interpolation. -/
theorem calculate_percentile_median_odd [FloorRing α] (x : List α) (hodd : x.length % 2 = 1) :
    calculate_percentile x (x.length : Int) 50 = some x[(x.length - 1) / 2] := by
  rw [calculate_percentile_eq]
  have hn : x.length = 2 * ((x.length - 1) / 2) + 1 := by omega
  have h : ((50 : α) / 100) * ((((x.length : Int) - 1 : Int)) : α)
      = (((x.length - 1) / 2 : Nat) : α) := by
    have h2 : ∀ m : Nat, x.length = 2 * m + 1 →
        (((x.length : Int) - 1 : Int) : α) = 2 * (m : α) := by
      intro m hm
      rw [hm]
      push_cast
      ring
    have h2 := h2 _ hn
    rw [h2]
    ring
  rw [h]
  exact percentileAt_natCast x ((x.length - 1) / 2) (by omega)

theorem calculate_percentile_median_odd_witness :
    calculate_percentile [(3 : ℚ), 5, 8] (([(3 : ℚ), 5, 8].length : Nat) : Int) 50 = some 5 :=
  calculate_percentile_median_odd [(3 : ℚ), 5, 8] (by decide)
theorem sorted_getElem_le {x : List α} (hs : x.Sorted (· ≤ ·)) (i j : Nat) (hij : i ≤ j)
    (hj : j < x.length) : x[i] ≤ x[j] := by
  rcases Nat.eq_or_lt_of_le hij with h | h
  · subst h
    exact le_rfl
  · exact (List.pairwise_iff_getElem.mp hs) i j (by omega) hj h

/-- Inside the array the interpolation reads two cells that exist, and on a
sorted array its value lies between them. -/
theorem percentileAt_spec [FloorRing α] (x : List α) (hs : x.Sorted (· ≤ ·)) (t : α)
    (h0 : 0 ≤ t) (h1 : t ≤ (((x.length : Int) - 1 : Int) : α)) :
    ∃ (a b : Nat) (v : α) (_ : a < x.length) (_ : b < x.length),
      ⌊t⌋ = (a : Int) ∧ ⌈t⌉ = (b : Int) ∧ percentileAt x t = some v ∧
      x[a] ≤ v ∧ v ≤ x[b] ∧
      (a ≠ b → v = x[a] * (1 - (t - (a : α))) + x[b] * (t - (a : α))) := by
  have hf0 : 0 ≤ ⌊t⌋ := Int.floor_nonneg.mpr h0
  have hc0 : 0 ≤ ⌈t⌉ := Int.ceil_nonneg h0
  have hc1 : ⌈t⌉ ≤ (x.length : Int) - 1 := Int.ceil_le.mpr h1
  have hfc : ⌊t⌋ ≤ ⌈t⌉ := Int.floor_le_ceil t
  obtain ⟨a, ha⟩ := Int.eq_ofNat_of_zero_le hf0
  obtain ⟨b, hb⟩ := Int.eq_ofNat_of_zero_le hc0
  have hab : a ≤ b := by omega
  have hbl : b < x.length := by omega
  have hal : a < x.length := by omega
  have hsab : x[a] ≤ x[b] := sorted_getElem_le hs a b hab hbl
  by_cases heq : a = b
  · subst heq
    refine ⟨a, a, x[a], hal, hal, ha, hb, ?_, le_rfl, le_rfl, fun h => absurd rfl h⟩
    simp only [percentileAt, ha, hb, if_true, readAt_natCast]
    exact List.getElem?_eq_getElem hal
  · have hne : (a : Int) ≠ (b : Int) := by omega
    have hfa : (a : α) ≤ t := by
      have := Int.floor_le t
      rw [ha] at this
      simpa using this
    have htb : t ≤ (b : α) := by
      have := Int.le_ceil t
      rw [hb] at this
      simpa using this
    have hb1 : (b : α) = (a : α) + 1 := by
      have h3 : ⌈t⌉ ≤ ⌊t⌋ + 1 := Int.ceil_le_floor_add_one t
      have : b = a + 1 := by omega
      rw [this]
      push_cast
      rfl
    have hw0 : 0 ≤ t - (a : α) := by linarith
    have hw1 : t - (a : α) ≤ 1 := by linarith
    refine ⟨a, b, x[a] * (1 - (t - (a : α))) + x[b] * (t - (a : α)), hal, hbl, ha, hb, ?_, ?_, ?_,
      fun _ => rfl⟩
    · simp only [percentileAt, ha, hb, if_neg hne, readAt_natCast,
        List.getElem?_eq_getElem hal, List.getElem?_eq_getElem hbl]
      simp
    · nlinarith [mul_nonneg hw0 (sub_nonneg.mpr hsab)]
    · nlinarith [mul_nonneg (sub_nonneg.mpr hw1) (sub_nonneg.mpr hsab)]

/-- On a sorted array the interpolated value does not decrease with the index. -/
theorem percentileAt_mono [FloorRing α] (x : List α) (hs : x.Sorted (· ≤ ·)) (t1 t2 : α)
    (h0 : 0 ≤ t1) (h12 : t1 ≤ t2) (h2 : t2 ≤ (((x.length : Int) - 1 : Int) : α)) :
    ∃ v1 v2, percentileAt x t1 = some v1 ∧ percentileAt x t2 = some v2 ∧ v1 ≤ v2 := by
  obtain ⟨a1, b1, v1, ha1, hb1, hf1, hc1, hv1, hlo1, hhi1, hi1⟩ :=
    percentileAt_spec x hs t1 h0 (le_trans h12 h2)
  obtain ⟨a2, b2, v2, ha2, hb2, hf2, hc2, hv2, hlo2, hhi2, hi2⟩ :=
    percentileAt_spec x hs t2 (le_trans h0 h12) h2
  refine ⟨v1, v2, hv1, hv2, ?_⟩
  have hfm : ⌊t1⌋ ≤ ⌊t2⌋ := Int.floor_mono h12
  have hcm : ⌈t1⌉ ≤ ⌈t2⌉ := Int.ceil_mono h12
  have hcf1 : ⌈t1⌉ ≤ ⌊t1⌋ + 1 := Int.ceil_le_floor_add_one t1
  have hcf2 : ⌈t2⌉ ≤ ⌊t2⌋ + 1 := Int.ceil_le_floor_add_one t2
  by_cases hcase : b1 ≤ a2
  · exact le_trans hhi1 (le_trans (sorted_getElem_le hs b1 a2 hcase ha2) hlo2)
  · have e1 : a2 = a1 := by omega
    have e2 : b1 = a1 + 1 := by omega
    have e3 : b2 = a1 + 1 := by omega
    subst e1 e2 e3
    rw [hi1 (by omega), hi2 (by omega)]
    have hsab : x[a2] ≤ x[a2 + 1] := sorted_getElem_le hs a2 (a2 + 1) (by omega) hb1
    nlinarith [mul_nonneg (sub_nonneg.mpr h12) (sub_nonneg.mpr hsab)]

/-- C2, as amended: over exact arithmetic, for every non-empty ascending array
`x` of length `n` and all `p1`, `p2` with `0 ≤ p1 < p2 ≤ 100`, both calls of
`calculate_percentile` read inside the array and
`calculate_percentile (x, n, p1) ≤ calculate_percentile (x, n, p2)`. -/
theorem calculate_percentile_mono [FloorRing α] (x : List α) (hn : 0 < x.length)
    (hs : x.Sorted (· ≤ ·)) (p1 p2 : α) (h0 : 0 ≤ p1) (h12 : p1 < p2) (h100 : p2 ≤ 100) :
    ∃ v1 v2, calculate_percentile x (x.length : Int) p1 = some v1 ∧
      calculate_percentile x (x.length : Int) p2 = some v2 ∧ v1 ≤ v2 := by
  have hc : (0 : α) ≤ ((((x.length : Int) - 1 : Int)) : α) := by
    have : (0 : Int) ≤ (x.length : Int) - 1 := by omega
    exact_mod_cast this
  simp only [calculate_percentile_eq]
  refine percentileAt_mono x hs _ _ ?_ ?_ ?_
  · exact mul_nonneg (div_nonneg h0 (by norm_num)) hc
  · exact mul_le_mul_of_nonneg_right (div_le_div_of_nonneg_right (le_of_lt h12) (by norm_num)) hc
  · have h : p2 / 100 ≤ 1 := by
      rw [div_le_one (by norm_num)]
      exact h100
    calc p2 / 100 * ((((x.length : Int) - 1 : Int)) : α)
        ≤ 1 * ((((x.length : Int) - 1 : Int)) : α) := mul_le_mul_of_nonneg_right h hc
      _ = _ := one_mul _

theorem calculate_percentile_mono_witness :
    ∃ v1 v2, calculate_percentile [(3 : ℚ), 5, 8] (([(3 : ℚ), 5, 8].length : Nat) : Int) 25
        = some v1 ∧
      calculate_percentile [(3 : ℚ), 5, 8] (([(3 : ℚ), 5, 8].length : Nat) : Int) 80 = some v2 ∧
      v1 ≤ v2 :=
  calculate_percentile_mono [(3 : ℚ), 5, 8] (by decide) (by norm_num) 25 80 (by norm_num)
    (by norm_num) (by norm_num)

/-! ## Proofs: loops over an array -/

/-- A loop `for (i = 0; i < n; i++)` whose body reads only cell `i` of an array
of `n` cells stays inside the array and is a left fold over its cells. -/
theorem foldlM_range_read {β σ : Type} (l : List β) (f : σ → β → σ) (body : σ → Nat → Option σ)
    (hbody : ∀ s i, body s i = (l[i]?).bind (fun x => some (f s x))) (s0 : σ) :
    (List.range l.length).foldlM body s0 = some (l.foldl f s0) := by
  have key : ∀ k, k ≤ l.length →
      (List.range k).foldlM body s0 = some ((l.take k).foldl f s0) := by
    intro k
    induction k with
    | zero => intro _; simp
    | succ k ih =>
      intro hk
      have hk1 : k < l.length := by omega
      have ht : l.take (k + 1) = l.take k ++ [l[k]] := by
        rw [List.take_succ, List.getElem?_eq_getElem hk1]
        rfl
      rw [List.range_succ, List.foldlM_append, ih (by omega), ht, List.foldl_append]
      simp [hbody, List.getElem?_eq_getElem hk1]
  have := key l.length le_rfl
  rwa [List.take_length] at this

/-! ## Proofs: moment engine -/

theorem calculate_moments_body_eq (data : List α) (mean : α) (acc : MomentSums α) (i : Nat) :
    calculate_moments_body data mean acc i
      = (data[i]?).bind (fun x => some (momentStep mean acc x)) := by
  cases h : data[i]? <;> simp [calculate_moments_body, momentStep, h]

theorem foldl_momentStep (mean : α) (data : List α) (acc : MomentSums α) :
    data.foldl (momentStep mean) acc =
      { sum_sq := acc.sum_sq + (data.map (fun v => (v - mean) ^ 2)).sum
        sum_cube := acc.sum_cube + (data.map (fun v => (v - mean) ^ 3)).sum
        sum_quad := acc.sum_quad + (data.map (fun v => (v - mean) ^ 4)).sum } := by
  induction data generalizing acc with
  | nil => simp
  | cons x t ih =>
    rw [List.foldl_cons, ih]
    simp only [momentStep, List.map_cons, List.sum_cons, MomentSums.mk.injEq]
    refine ⟨by ring, by ring, by ring⟩

/-- The loop of `calculate_moments` over the whole array yields the three sums
of powers of the deviations. -/
theorem calculate_moments_loop (data : List α) (mean : α) :
    (List.range ((data.length : Int)).toNat).foldlM (calculate_moments_body data mean)
        { sum_sq := 0, sum_cube := 0, sum_quad := 0 } =
      some { sum_sq := (data.map (fun v => (v - mean) ^ 2)).sum
             sum_cube := (data.map (fun v => (v - mean) ^ 3)).sum
             sum_quad := (data.map (fun v => (v - mean) ^ 4)).sum } := by
  rw [Int.toNat_natCast,
    foldlM_range_read data (momentStep mean) _ (calculate_moments_body_eq data mean),
    foldl_momentStep]
  simp

/-- C6: for every array of `n ≥ 2` values and given mean `m`, with
`d_i = value_i - m`, `calculate_moments` sets `variance = (Σ d_i²) / (n - 1)`
and `std = sqrt (variance)`, and when `std > 0` it sets
`skewness = ((Σ d_i³) / n) / std³` and `kurtosis = ((Σ d_i⁴) / n) / variance² - 3`:
divisor `n - 1` for the variance, divisor `n` for the third and fourth moment. -/
theorem calculate_moments_formulas (sqrt : α → α) (data : List α) (mean : α)
    (stats : Statistics α) (_hn : 2 ≤ data.length) :
    ∃ s, calculate_moments sqrt data (data.length : Int) mean stats = some s ∧
      s.variance = (data.map (fun v => (v - mean) ^ 2)).sum / ((data.length : α) - 1) ∧
      s.std = sqrt s.variance ∧
      (s.std > 0 →
        s.skewness = ((data.map (fun v => (v - mean) ^ 3)).sum / (data.length : α)) / s.std ^ 3 ∧
        s.kurtosis
          = ((data.map (fun v => (v - mean) ^ 4)).sum / (data.length : α)) / s.variance ^ 2 - 3) := by
  unfold calculate_moments
  rw [calculate_moments_loop]
  simp only [Option.bind_eq_bind, Option.some_bind]
  split_ifs with hstd
  · refine ⟨_, rfl, ?_, ?_, fun _ => ⟨?_, ?_⟩⟩ <;> simp
  · refine ⟨_, rfl, ?_, ?_, fun h => absurd h ?_⟩
    · simp
    · simp
    · simpa using hstd

theorem calculate_moments_formulas_witness :
    ∃ s, calculate_moments Real.sqrt [(1 : ℝ), 2, 6] (([(1 : ℝ), 2, 6].length : Nat) : Int) 3
        Statistics.zeroed = some s ∧
      s.variance = ([(1 : ℝ), 2, 6].map (fun v => (v - 3) ^ 2)).sum
        / ((([(1 : ℝ), 2, 6].length : Nat) : ℝ) - 1) ∧
      s.std = Real.sqrt s.variance ∧
      (s.std > 0 →
        s.skewness = (([(1 : ℝ), 2, 6].map (fun v => (v - 3) ^ 3)).sum
          / (([(1 : ℝ), 2, 6].length : Nat) : ℝ)) / s.std ^ 3 ∧
        s.kurtosis = (([(1 : ℝ), 2, 6].map (fun v => (v - 3) ^ 4)).sum
          / (([(1 : ℝ), 2, 6].length : Nat) : ℝ)) / s.variance ^ 2 - 3) :=
  calculate_moments_formulas Real.sqrt [(1 : ℝ), 2, 6] 3 Statistics.zeroed (by decide)

/-- C5: for every array of `n ≥ 2` copies of one value `v`, `calculate_moments`
called with `mean = v` takes the branch `std == 0` and sets `variance = 0`,
`std = 0`, `skewness = 0` and `kurtosis = 0` (the other fields are left as they
were); nothing is divided by `std` or `variance`.  The square root enters only
through `sqrt (0) = 0`. -/
theorem calculate_moments_degenerate (sqrt : α → α) (hsqrt : sqrt 0 = 0) (n : Nat) (_hn : 2 ≤ n)
    (v : α) (stats : Statistics α) :
    calculate_moments sqrt (List.replicate n v) (n : Int) v stats =
      some { stats with variance := 0, std := 0, skewness := 0, kurtosis := 0 } := by
  have hloop := calculate_moments_loop (List.replicate n v) v
  rw [List.length_replicate] at hloop
  unfold calculate_moments
  rw [hloop]
  simp [hsqrt]

theorem calculate_moments_degenerate_witness :
    calculate_moments Real.sqrt (List.replicate 3 (7 : ℝ)) ((3 : Nat) : Int) 7 Statistics.zeroed =
      some { (Statistics.zeroed : Statistics ℝ) with
        variance := 0, std := 0, skewness := 0, kurtosis := 0 } :=
  calculate_moments_degenerate Real.sqrt Real.sqrt_zero 3 (by decide) 7 Statistics.zeroed

/-- Closed form of `calculate_moments` on a whole array: the four fields it
writes, every other field kept. -/
theorem calculate_moments_eq (sqrt : α → α) (data : List α) (mean : α) (stats : Statistics α) :
    calculate_moments sqrt data (data.length : Int) mean stats =
      some { stats with
        variance := (data.map (fun v => (v - mean) ^ 2)).sum / ((((data.length : Int) - 1 : Int)) : α)
        std := sqrt ((data.map (fun v => (v - mean) ^ 2)).sum
          / ((((data.length : Int) - 1 : Int)) : α))
        skewness :=
          if sqrt ((data.map (fun v => (v - mean) ^ 2)).sum
              / ((((data.length : Int) - 1 : Int)) : α)) > 0 then
            ((data.map (fun v => (v - mean) ^ 3)).sum / (((data.length : Int)) : α))
              / sqrt ((data.map (fun v => (v - mean) ^ 2)).sum
                / ((((data.length : Int) - 1 : Int)) : α)) ^ 3
          else 0
        kurtosis :=
          if sqrt ((data.map (fun v => (v - mean) ^ 2)).sum
              / ((((data.length : Int) - 1 : Int)) : α)) > 0 then
            ((data.map (fun v => (v - mean) ^ 4)).sum / (((data.length : Int)) : α))
              / ((data.map (fun v => (v - mean) ^ 2)).sum
                / ((((data.length : Int) - 1 : Int)) : α)) ^ 2 - 3
          else 0 } := by
  unfold calculate_moments
  rw [calculate_moments_loop]
  simp only [Option.bind_eq_bind, Option.some_bind]
  split_ifs with hstd <;> rfl
/-! ## Proofs: the known distribution -/

theorem knownDataset_scan (ts : Fin 5 → α) (capacity : Int) :
    (List.range (5 : Int).toNat).foldlM (compute_statistics_scan (knownDataset ts capacity).data)
        { bitrates := [], sum := 0, min := 1000, max := 1000,
          total_frames := 0, total_chunk_size := 0 } =
      some { bitrates := [1000, 2000, 3000, 4000, 5000], sum := 15000, min := 1000, max := 5000,
             total_frames := 0, total_chunk_size := 0 } := by
  have h5 : (5 : Int).toNat = 5 := rfl
  have hr : List.range 5 = [0, 1, 2, 3, 4] := by decide
  rw [h5, hr]
  simp only [knownDataset, List.foldlM_cons, List.foldlM_nil, compute_statistics_scan]
  norm_num

theorem knownDataset_time (ts : Fin 5 → α) (capacity : Int) :
    (List.range (5 : Int).toNat).foldlM (compute_statistics_time (knownDataset ts capacity).data)
        { min_time := ((0 : Int) : α), max_time := ((0 : Int) : α),
          time_diff_sum := 0, time_diff_count := 0 } =
      some { min_time := 0, max_time := 4, time_diff_sum := 4, time_diff_count := 4 } := by
  have h5 : (5 : Int).toNat = 5 := rfl
  have hr : List.range 5 = [0, 1, 2, 3, 4] := by decide
  rw [h5, hr]
  simp only [knownDataset, List.foldlM_cons, List.foldlM_nil, compute_statistics_time]
  norm_num

theorem known_percentiles [FloorRing α] :
    calculate_percentile [(1000 : α), 2000, 3000, 4000, 5000] 5 50 = some 3000 ∧
    calculate_percentile [(1000 : α), 2000, 3000, 4000, 5000] 5 25 = some 2000 ∧
    calculate_percentile [(1000 : α), 2000, 3000, 4000, 5000] 5 75 = some 4000 := by
  have e50 : ((50 : α) / 100) * (((5 - 1 : Int)) : α) = ((2 : Nat) : α) := by norm_num
  have e25 : ((25 : α) / 100) * (((5 - 1 : Int)) : α) = ((1 : Nat) : α) := by norm_num
  have e75 : ((75 : α) / 100) * (((5 - 1 : Int)) : α) = ((3 : Nat) : α) := by norm_num
  refine ⟨?_, ?_, ?_⟩
  · rw [calculate_percentile_eq, e50]
    exact percentileAt_natCast _ 2 (by simp)
  · rw [calculate_percentile_eq, e25]
    exact percentileAt_natCast _ 1 (by simp)
  · rw [calculate_percentile_eq, e75]
    exact percentileAt_natCast _ 3 (by simp)

/-- The two outer percentiles of the known distribution fall between cells and
are interpolated: `q5 = 1200` and `q95 = 4800`. -/
theorem known_percentiles_outer [FloorRing α] :
    calculate_percentile [(1000 : α), 2000, 3000, 4000, 5000] 5 5 = some 1200 ∧
    calculate_percentile [(1000 : α), 2000, 3000, 4000, 5000] 5 95 = some 4800 := by
  have e5 : ((5 : α) / 100) * (((5 - 1 : Int)) : α) = 1 / 5 := by norm_num
  have e95 : ((95 : α) / 100) * (((5 - 1 : Int)) : α) = 19 / 5 := by norm_num
  have f5 : ⌊(1 / 5 : α)⌋ = 0 := by
    rw [Int.floor_eq_iff]
    constructor <;> norm_num
  have c5 : ⌈(1 / 5 : α)⌉ = 1 := by
    rw [Int.ceil_eq_iff]
    constructor <;> norm_num
  have f95 : ⌊(19 / 5 : α)⌋ = 3 := by
    rw [Int.floor_eq_iff]
    constructor <;> norm_num
  have c95 : ⌈(19 / 5 : α)⌉ = 4 := by
    rw [Int.ceil_eq_iff]
    constructor <;> norm_num
  constructor
  · rw [calculate_percentile_eq, e5]
    simp only [percentileAt, f5, c5, readAt]
    norm_num
  · rw [calculate_percentile_eq, e95]
    have t3 : Int.toNat 3 = 3 := rfl
    have t4 : Int.toNat 4 = 4 := rfl
    simp only [percentileAt, f95, c95, readAt, t3, t4]
    norm_num

/-- C7: on the dataset of five records with bitrates
`[1000, 2000, 3000, 4000, 5000]`, chunk indices `0..4`, frame count `0` and chunk
size `0`, `compute_statistics` runs to its end and sets `avg = 3000`,
`median = 3000`, `min = 1000`, `max = 5000`, `range = 4000`, `variance = 2500000`,
`std = sqrt (2500000)`, `q1 = 2000`, `q3 = 4000`, `iqr = 2000`, `total_duration = 5`,
`time_resolution = 1` and `stability_index = 1 - std / 3000`. -/
theorem compute_statistics_known_distribution [FloorRing α] (sqrt : α → α) (ts : Fin 5 → α)
    (capacity : Int) (stats : Statistics α) :
    ∃ s, compute_statistics sqrt true (knownDataset ts capacity) stats =
        some (s, [⟨"INFO", "Statistics computed successfully"⟩]) ∧
      s.avg = 3000 ∧ s.median = 3000 ∧ s.min = 1000 ∧ s.max = 5000 ∧ s.range = 4000 ∧
      s.variance = 2500000 ∧ s.std = sqrt 2500000 ∧ s.q1 = 2000 ∧ s.q3 = 4000 ∧
      s.iqr = 2000 ∧ s.total_duration = 5 ∧ s.time_resolution = 1 ∧
      s.stability_index = 1 - sqrt 2500000 / 3000 := by
  have hscan := knownDataset_scan ts capacity
  have htime := knownDataset_time ts capacity
  have hsort : sort_doubles [(1000 : α), 2000, 3000, 4000, 5000] 5
      = some [1000, 2000, 3000, 4000, 5000] :=
    sort_doubles_of_sorted [(1000 : α), 2000, 3000, 4000, 5000] (by norm_num)
  obtain ⟨h50, h25, h75⟩ := known_percentiles (α := α)
  obtain ⟨h5, h95⟩ := known_percentiles_outer (α := α)
  have hmom := fun st => calculate_moments_eq sqrt [(1000 : α), 2000, 3000, 4000, 5000]
    (15000 / ((5 : Int) : α)) st
  have hlen : (([(1000 : α), 2000, 3000, 4000, 5000].length : Nat) : Int) = 5 := rfl
  simp only [hlen] at hmom
  have hcount : (knownDataset ts capacity).count = 5 := rfl
  have hd0 : (knownDataset ts capacity).data[0]? = some ⟨0, 1000, 0, 0, ts 0⟩ := rfl
  unfold compute_statistics
  rw [hcount, if_neg (by decide), if_neg (by decide)]
  simp only [hd0, Option.bind_eq_bind, Option.some_bind, Option.pure_def, hscan, hsort, h50, h25,
    h75, h5, h95, hmom, htime]
  refine ⟨_, rfl, ?_⟩
  norm_num

/-! ## Proofs: the empty dataset -/

/-- C8, counterexample: called on the empty dataset (`count == 0`) with the
zero-filled record of `main`, `compute_statistics` completes normally, logs
nothing, and the caller is left with the zero-filled record: no error is
signalled. -/
theorem empty_dataset_returns_silently :
    compute_statistics Real.sqrt true ({ data := [], count := 0, capacity := 10000 } : Dataset ℝ)
      Statistics.zeroed = some (Statistics.zeroed, []) := by
  simp [compute_statistics]

/-- C8, as amended: on an empty dataset (`count == 0`) `compute_statistics`
returns at once, logs nothing and leaves the record of its caller exactly as it
was; the refusal is that of `main`, which on an empty dataset logs the error
"No valid data points loaded" and returns `1` without calling
`compute_statistics` or the report writer. -/
theorem compute_statistics_empty [FloorRing α] (sqrt : α → α) (malloc_ok : Bool) (ds : Dataset α)
    (stats : Statistics α) (h : ds.count = 0) :
    compute_statistics sqrt malloc_ok ds stats = some (stats, []) ∧
      main_analysis sqrt malloc_ok ds =
        some { exit_status := 1, log := [⟨"ERROR", "No valid data points loaded"⟩],
               reported := none } := by
  simp [compute_statistics, main_analysis, h]

theorem compute_statistics_empty_witness :
    compute_statistics Real.sqrt true ({ data := [], count := 0, capacity := 10000 } : Dataset ℝ)
        { (Statistics.zeroed : Statistics ℝ) with avg := 7 }
      = some ({ (Statistics.zeroed : Statistics ℝ) with avg := 7 }, []) ∧
      main_analysis Real.sqrt true ({ data := [], count := 0, capacity := 10000 } : Dataset ℝ) =
        some { exit_status := 1, log := [⟨"ERROR", "No valid data points loaded"⟩],
               reported := none } :=
  compute_statistics_empty Real.sqrt true { data := [], count := 0, capacity := 10000 }
    { (Statistics.zeroed : Statistics ℝ) with avg := 7 } rfl

/-! ## Proofs: quality label -/

theorem compute_statistics_scan_eq (data : List (DataPoint α)) (s : ScanState α) (i : Nat) :
    compute_statistics_scan data s i = (data[i]?).bind (fun d => some (scanStep s d)) := by
  cases h : data[i]? <;> simp [compute_statistics_scan, scanStep, h]

theorem foldl_scanStep (data : List (DataPoint α)) (s : ScanState α) :
    data.foldl scanStep s =
      { bitrates := s.bitrates ++ data.map (fun d => d.bitrate)
        sum := s.sum + (data.map (fun d => d.bitrate)).sum
        min := lowest s.min (data.map (fun d => d.bitrate))
        max := highest s.max (data.map (fun d => d.bitrate))
        total_frames := s.total_frames + (data.map (fun d => d.frame_count)).sum
        total_chunk_size := s.total_chunk_size + (data.map (fun d => d.chunk_size)).sum } := by
  induction data generalizing s with
  | nil => simp [lowest, highest]
  | cons d t ih =>
    rw [List.foldl_cons, ih]
    simp only [scanStep, lowest, highest, List.map_cons, List.sum_cons, List.foldl_cons,
      List.append_assoc, List.singleton_append, ScanState.mk.injEq, true_and]
    refine ⟨by ring, by ring, by ring⟩

/-- The first loop of `compute_statistics` over the whole record store. -/
theorem compute_statistics_scan_loop (data : List (DataPoint α)) (b0 : α) :
    (List.range ((data.length : Int)).toNat).foldlM (compute_statistics_scan data)
        { bitrates := [], sum := 0, min := b0, max := b0, total_frames := 0,
          total_chunk_size := 0 } =
      some { bitrates := data.map (fun d => d.bitrate)
             sum := (data.map (fun d => d.bitrate)).sum
             min := lowest b0 (data.map (fun d => d.bitrate))
             max := highest b0 (data.map (fun d => d.bitrate))
             total_frames := (data.map (fun d => d.frame_count)).sum
             total_chunk_size := (data.map (fun d => d.chunk_size)).sum } := by
  rw [Int.toNat_natCast,
    foldlM_range_read data scanStep _ (compute_statistics_scan_eq data), foldl_scanStep]
  simp

theorem lowest_spec (m0 : α) (l : List α) :
    lowest m0 l ≤ m0 ∧ (∀ y ∈ l, lowest m0 l ≤ y) ∧ (lowest m0 l = m0 ∨ lowest m0 l ∈ l) := by
  induction l generalizing m0 with
  | nil => simp [lowest]
  | cons x t ih =>
    have hstep : lowest m0 (x :: t) = lowest (if x < m0 then x else m0) t := rfl
    obtain ⟨h1, h2, h3⟩ := ih (if x < m0 then x else m0)
    rw [hstep]
    by_cases hx : x < m0
    · rw [if_pos hx] at h1 h2 h3 ⊢
      refine ⟨le_trans h1 (le_of_lt hx), ?_, ?_⟩
      · intro y hy
        rcases List.mem_cons.mp hy with rfl | hy
        · exact h1
        · exact h2 y hy
      · rcases h3 with h3 | h3
        · exact Or.inr (by rw [h3]; exact List.mem_cons_self _ _)
        · exact Or.inr (List.mem_cons_of_mem _ h3)
    · rw [if_neg hx] at h1 h2 h3 ⊢
      refine ⟨h1, ?_, ?_⟩
      · intro y hy
        rcases List.mem_cons.mp hy with rfl | hy
        · exact le_trans h1 (not_lt.mp hx)
        · exact h2 y hy
      · rcases h3 with h3 | h3
        · exact Or.inl h3
        · exact Or.inr (List.mem_cons_of_mem _ h3)

theorem highest_spec (m0 : α) (l : List α) :
    m0 ≤ highest m0 l ∧ (∀ y ∈ l, y ≤ highest m0 l) ∧ (highest m0 l = m0 ∨ highest m0 l ∈ l) := by
  induction l generalizing m0 with
  | nil => simp [highest]
  | cons x t ih =>
    have hstep : highest m0 (x :: t) = highest (if x > m0 then x else m0) t := rfl
    obtain ⟨h1, h2, h3⟩ := ih (if x > m0 then x else m0)
    rw [hstep]
    by_cases hx : x > m0
    · rw [if_pos hx] at h1 h2 h3 ⊢
      refine ⟨le_trans (le_of_lt hx) h1, ?_, ?_⟩
      · intro y hy
        rcases List.mem_cons.mp hy with rfl | hy
        · exact h1
        · exact h2 y hy
      · rcases h3 with h3 | h3
        · exact Or.inr (by rw [h3]; exact List.mem_cons_self _ _)
        · exact Or.inr (List.mem_cons_of_mem _ h3)
    · rw [if_neg hx] at h1 h2 h3 ⊢
      refine ⟨h1, ?_, ?_⟩
      · intro y hy
        rcases List.mem_cons.mp hy with rfl | hy
        · exact le_trans (not_lt.mp hx) h1
        · exact h2 y hy
      · rcases h3 with h3 | h3
        · exact Or.inl h3
        · exact Or.inr (List.mem_cons_of_mem _ h3)

/-- Started at a value of the list, the running minimum is the least value of
the list: it does not depend on the order of the list nor on the start. -/
theorem lowest_perm (a b : α) (l l' : List α) (ha : a ∈ l) (hb : b ∈ l') (h : l.Perm l') :
    lowest a l = lowest b l' := by
  obtain ⟨h1, h2, h3⟩ := lowest_spec a l
  obtain ⟨k1, k2, k3⟩ := lowest_spec b l'
  have hm : lowest a l ∈ l := by
    rcases h3 with h3 | h3
    · rw [h3]; exact ha
    · exact h3
  have km : lowest b l' ∈ l' := by
    rcases k3 with k3 | k3
    · rw [k3]; exact hb
    · exact k3
  exact le_antisymm (h2 _ (h.mem_iff.mpr km)) (k2 _ (h.mem_iff.mp hm))

theorem highest_perm (a b : α) (l l' : List α) (ha : a ∈ l) (hb : b ∈ l') (h : l.Perm l') :
    highest a l = highest b l' := by
  obtain ⟨h1, h2, h3⟩ := highest_spec a l
  obtain ⟨k1, k2, k3⟩ := highest_spec b l'
  have hm : highest a l ∈ l := by
    rcases h3 with h3 | h3
    · rw [h3]; exact ha
    · exact h3
  have km : highest b l' ∈ l' := by
    rcases k3 with k3 | k3
    · rw [k3]; exact hb
    · exact k3
  exact le_antisymm (k2 _ (h.mem_iff.mp hm)) (h2 _ (h.mem_iff.mpr km))
theorem lowest_append_singleton (m0 : α) (l : List α) (x : α) :
    lowest m0 (l ++ [x]) = if x < lowest m0 l then x else lowest m0 l := by
  simp [lowest, List.foldl_append]

theorem highest_append_singleton (m0 : α) (l : List α) (x : α) :
    highest m0 (l ++ [x]) = if x > highest m0 l then x else highest m0 l := by
  simp [highest, List.foldl_append]

/-- The first `k` rounds of the second loop of `compute_statistics`. -/
theorem compute_statistics_time_rounds (data : List (DataPoint α)) (t0 : TimeState α) (k : Nat)
    (hk : k ≤ data.length) :
    (List.range k).foldlM (compute_statistics_time data) t0 =
      some { min_time :=
               lowest t0.min_time ((data.take k).map (fun d => ((d.chunk_index : Int) : α)))
             max_time :=
               highest t0.max_time ((data.take k).map (fun d => ((d.chunk_index : Int) : α)))
             time_diff_sum := t0.time_diff_sum + ((List.range k).map (timeDiff data)).sum
             time_diff_count := t0.time_diff_count + ((k - 1 : Nat) : Int) } := by
  induction k with
  | zero => simp [lowest, highest]
  | succ k ih =>
    have hk1 : k < data.length := by omega
    have ht : data.take (k + 1) = data.take k ++ [data[k]] := by
      rw [List.take_succ, List.getElem?_eq_getElem hk1]
      rfl
    rw [List.range_succ, List.foldlM_append, ih (by omega), ht]
    simp only [Option.bind_eq_bind, Option.some_bind, List.foldlM_cons, List.foldlM_nil,
      compute_statistics_time, List.getElem?_eq_getElem hk1, List.map_append, List.map_cons,
      List.map_nil, lowest_append_singleton, highest_append_singleton, List.sum_append,
      List.sum_cons, List.sum_nil, add_zero, Option.pure_def]
    rcases Nat.eq_zero_or_pos k with h0 | hpos
    · subst h0
      simp [timeDiff]
    · have hk0 : k - 1 < data.length := by omega
      have hkk : ((k + 1 - 1 : Nat) : Int) = ((k - 1 : Nat) : Int) + 1 := by omega
      simp only [hpos, gt_iff_lt, if_true, List.getElem?_eq_getElem hk0, Option.some_bind,
        timeDiff, chunkAt, List.getElem?_eq_getElem hk1, hkk]
      simp only [Option.some.injEq, TimeState.mk.injEq, true_and]
      refine ⟨by ring, by ring⟩

/-- The second loop of `compute_statistics` over the whole record store. -/
theorem compute_statistics_time_loop (data : List (DataPoint α)) (c0 : α) :
    (List.range ((data.length : Int)).toNat).foldlM (compute_statistics_time data)
        { min_time := c0, max_time := c0, time_diff_sum := 0, time_diff_count := 0 } =
      some { min_time := lowest c0 (data.map (fun d => ((d.chunk_index : Int) : α)))
             max_time := highest c0 (data.map (fun d => ((d.chunk_index : Int) : α)))
             time_diff_sum := ((List.range data.length).map (timeDiff data)).sum
             time_diff_count := ((data.length - 1 : Nat) : Int) } := by
  rw [Int.toNat_natCast, compute_statistics_time_rounds data _ data.length le_rfl]
  simp
/-- The real index of a percentile between `0` and `100` lies inside a
non-empty array. -/
theorem percentile_index_bounds (n : Nat) (hn : 0 < n) (p : α) (h0 : 0 ≤ p) (h100 : p ≤ 100) :
    0 ≤ (p / 100) * ((((n : Int) - 1 : Int)) : α) ∧
      (p / 100) * ((((n : Int) - 1 : Int)) : α) ≤ ((((n : Int) - 1 : Int)) : α) := by
  have hc : (0 : α) ≤ ((((n : Int) - 1 : Int)) : α) := by
    have : (0 : Int) ≤ (n : Int) - 1 := by omega
    exact_mod_cast this
  have h : p / 100 ≤ 1 := by
    rw [div_le_one (by norm_num)]
    exact h100
  refine ⟨mul_nonneg (div_nonneg h0 (by norm_num)) hc, ?_⟩
  calc p / 100 * ((((n : Int) - 1 : Int)) : α)
      ≤ 1 * ((((n : Int) - 1 : Int)) : α) := mul_le_mul_of_nonneg_right h hc
    _ = _ := one_mul _

/-- On a non-empty sorted array every percentile between `0` and `100` is read
inside the array and lies between the first and the last cell. -/
theorem calculate_percentile_defined [FloorRing α] (x : List α) (hn : 0 < x.length)
    (hs : x.Sorted (· ≤ ·)) (p : α) (h0 : 0 ≤ p) (h100 : p ≤ 100) :
    ∃ v, calculate_percentile x (x.length : Int) p = some v ∧
      x[0] ≤ v ∧ v ≤ x[x.length - 1] := by
  obtain ⟨hb0, hb1⟩ := percentile_index_bounds x.length hn p h0 h100
  obtain ⟨a, b, v, ha, hb, _, _, hv, hlo, hhi, _⟩ := percentileAt_spec x hs _ hb0 hb1
  refine ⟨v, by rw [calculate_percentile_eq, hv], ?_, ?_⟩
  · exact le_trans (sorted_getElem_le hs 0 a (by omega) ha) hlo
  · exact le_trans hhi (sorted_getElem_le hs b (x.length - 1) (by omega) (by omega))

/-- Closed form of `compute_statistics` on a non-empty dataset whose `count` is
the number of its records, when the allocation succeeds: every stage stays
inside its arrays and the record is assembled from the sorted bitrates, the five
percentiles and the results of the two loops. -/
theorem compute_statistics_spec [FloorRing α] (sqrt : α → α) (ds : Dataset α)
    (stats : Statistics α) (hcount : ds.count = (ds.data.length : Int)) (hne : ds.data ≠ []) :
    ∃ (d0 : DataPoint α) (sorted : List α) (median q1 q3 q5 q95 : α),
      ds.data.head? = some d0 ∧
      sort_doubles (ds.data.map (fun d => d.bitrate)) ds.count = some sorted ∧
      sorted.Perm (ds.data.map (fun d => d.bitrate)) ∧ sorted.Sorted (· ≤ ·) ∧
      calculate_percentile sorted ds.count 50 = some median ∧
      calculate_percentile sorted ds.count 25 = some q1 ∧
      calculate_percentile sorted ds.count 75 = some q3 ∧
      calculate_percentile sorted ds.count 5 = some q5 ∧
      calculate_percentile sorted ds.count 95 = some q95 ∧
      compute_statistics sqrt true ds stats =
        some (statisticsRecord sqrt ds.count
            (ds.data.map (fun d => d.bitrate)).sum
            (lowest d0.bitrate (ds.data.map (fun d => d.bitrate)))
            (highest d0.bitrate (ds.data.map (fun d => d.bitrate)))
            (ds.data.map (fun d => d.frame_count)).sum
            (ds.data.map (fun d => d.chunk_size)).sum
            sorted median q1 q3 q5 q95
            { min_time := lowest ((d0.chunk_index : Int) : α)
                (ds.data.map (fun d => ((d.chunk_index : Int) : α)))
              max_time := highest ((d0.chunk_index : Int) : α)
                (ds.data.map (fun d => ((d.chunk_index : Int) : α)))
              time_diff_sum := ((List.range ds.data.length).map (timeDiff ds.data)).sum
              time_diff_count := ((ds.data.length - 1 : Nat) : Int) },
          [⟨"INFO", "Statistics computed successfully"⟩]) := by
  obtain ⟨d0, rest, hdata⟩ := List.exists_cons_of_ne_nil hne
  have hd0 : ds.data[0]? = some d0 := by rw [hdata]; simp
  have hlen : 0 < ds.data.length := by rw [hdata]; simp
  have hmaplen : (ds.data.map (fun d => d.bitrate)).length = ds.data.length := List.length_map _ _
  obtain ⟨sorted, hsort, hperm, hsorted⟩ := sort_doubles_correct (ds.data.map (fun d => d.bitrate))
  rw [hmaplen] at hsort
  have hslen : sorted.length = ds.data.length := by rw [hperm.length_eq, hmaplen]
  have hpct : ∀ p : α, 0 ≤ p → p ≤ 100 →
      ∃ v, calculate_percentile sorted (ds.data.length : Int) p = some v := by
    intro p h0 h100
    obtain ⟨v, hv, _⟩ := calculate_percentile_defined sorted (by omega) hsorted p h0 h100
    rw [hslen] at hv
    exact ⟨v, hv⟩
  obtain ⟨median, h50⟩ := hpct 50 (by norm_num) (by norm_num)
  obtain ⟨q1, h25⟩ := hpct 25 (by norm_num) (by norm_num)
  obtain ⟨q3, h75⟩ := hpct 75 (by norm_num) (by norm_num)
  obtain ⟨q5, h5⟩ := hpct 5 (by norm_num) (by norm_num)
  obtain ⟨q95, h95⟩ := hpct 95 (by norm_num) (by norm_num)
  have hmom := fun (mean : α) (st : Statistics α) => calculate_moments_eq sqrt sorted mean st
  rw [hslen] at hmom
  have hc0 : ¬ ((ds.data.length : Int) = 0) := by omega
  refine ⟨d0, sorted, median, q1, q3, q5, q95, by rw [hdata]; rfl, by rw [hcount]; exact hsort,
    hperm, hsorted, by rw [hcount]; exact h50, by rw [hcount]; exact h25,
    by rw [hcount]; exact h75, by rw [hcount]; exact h5, by rw [hcount]; exact h95, ?_⟩
  unfold compute_statistics
  rw [hcount, if_neg hc0, if_neg (by decide)]
  simp only [hd0, Option.bind_eq_bind, Option.some_bind, Option.pure_def,
    compute_statistics_scan_loop, compute_statistics_time_loop, hsort, h50, h25, h75, h5, h95,
    hmom]
  rfl
/-! ## Proofs: independence of the order of the records -/

theorem head?_mem_map {β γ : Type} (f : β → γ) (l : List β) (d : β) (h : l.head? = some d) :
    f d ∈ l.map f := by
  cases l with
  | nil => simp at h
  | cons a t =>
    simp only [List.head?_cons, Option.some.injEq] at h
    subst h
    simp

/-- C9: for every non-empty dataset and every reordering of its records,
`compute_statistics` produces the same `min`, `max`, `avg`, `median`, `q1`, `q3`,
`q5`, `q95`, `iqr`, `range`, `variance`, `std`, `skewness`, `kurtosis`, `cv`,
`stability_index` and `peak_to_avg_ratio` over exact arithmetic, and also the
same `num_chunks`, `total_duration`, `total_frames` (as an unbounded integer)
and `avg_chunk_size`: the two records agree in every field other than
`time_resolution`. -/
theorem compute_statistics_order_independent [FloorRing α] (sqrt : α → α) (malloc_ok : Bool)
    (ds ds' : Dataset α) (stats : Statistics α) (hcount : ds.count = (ds.data.length : Int))
    (hcount' : ds'.count = (ds'.data.length : Int)) (hne : ds.data ≠ [])
    (hperm : ds'.data.Perm ds.data) :
    ∃ s s' log, compute_statistics sqrt malloc_ok ds stats = some (s, log) ∧
      compute_statistics sqrt malloc_ok ds' stats = some (s', log) ∧
      s'.min = s.min ∧ s'.max = s.max ∧ s'.avg = s.avg ∧ s'.median = s.median ∧
      s'.q1 = s.q1 ∧ s'.q3 = s.q3 ∧ s'.q5 = s.q5 ∧ s'.q95 = s.q95 ∧ s'.iqr = s.iqr ∧
      s'.range = s.range ∧ s'.variance = s.variance ∧ s'.std = s.std ∧
      s'.skewness = s.skewness ∧ s'.kurtosis = s.kurtosis ∧ s'.cv = s.cv ∧
      s'.stability_index = s.stability_index ∧ s'.peak_to_avg_ratio = s.peak_to_avg_ratio ∧
      s' = { s with time_resolution := s'.time_resolution } := by
  have hne' : ds'.data ≠ [] := by
    intro h
    rw [h] at hperm
    exact hne (List.nil_perm.mp hperm)
  have hlen : ds'.data.length = ds.data.length := hperm.length_eq
  have hcc : ds'.count = ds.count := by rw [hcount, hcount', hlen]
  cases malloc_ok with
  | false =>
    have hc0 : ¬ (ds.count = 0) := by
      have := List.length_pos.mpr hne
      omega
    have hc0' : ¬ (ds'.count = 0) := by rw [hcc]; exact hc0
    refine ⟨stats, stats, [⟨"ERROR", "Memory allocation failed"⟩], ?_, ?_, rfl, rfl, rfl, rfl,
      rfl, rfl, rfl, rfl, rfl, rfl, rfl, rfl, rfl, rfl, rfl, rfl, rfl, rfl⟩
    · simp [compute_statistics, hc0]
    · simp [compute_statistics, hc0']
  | true =>
    obtain ⟨d0, sorted, median, q1, q3, q5, q95, hd0, hsort, hsp, hss, h50, h25, h75, h5, h95,
      hrun⟩ := compute_statistics_spec sqrt ds stats hcount hne
    obtain ⟨d0', sorted', median', q1', q3', q5', q95', hd0', hsort', hsp', hss', h50', h25',
      h75', h5', h95', hrun'⟩ := compute_statistics_spec sqrt ds' stats hcount' hne'
    have hbr : (ds'.data.map (fun d => d.bitrate)).Perm (ds.data.map (fun d => d.bitrate)) :=
      hperm.map _
    have hci : (ds'.data.map (fun d => ((d.chunk_index : Int) : α))).Perm
        (ds.data.map (fun d => ((d.chunk_index : Int) : α))) := hperm.map _
    have hsorted : sorted' = sorted :=
      List.eq_of_perm_of_sorted (hsp'.trans (hbr.trans hsp.symm)) hss' hss
    subst hsorted
    rw [hcc] at h50' h25' h75' h5' h95'
    have e50 : median' = median := Option.some.inj (h50'.symm.trans h50)
    have e25 : q1' = q1 := Option.some.inj (h25'.symm.trans h25)
    have e75 : q3' = q3 := Option.some.inj (h75'.symm.trans h75)
    have e5 : q5' = q5 := Option.some.inj (h5'.symm.trans h5)
    have e95 : q95' = q95 := Option.some.inj (h95'.symm.trans h95)
    subst e50 e25 e75 e5 e95
    have esum : (ds'.data.map (fun d => d.bitrate)).sum = (ds.data.map (fun d => d.bitrate)).sum :=
      hbr.sum_eq
    have eframes : (ds'.data.map (fun d => d.frame_count)).sum
        = (ds.data.map (fun d => d.frame_count)).sum := (hperm.map _).sum_eq
    have esize : (ds'.data.map (fun d => d.chunk_size)).sum
        = (ds.data.map (fun d => d.chunk_size)).sum := (hperm.map _).sum_eq
    have elo := lowest_perm d0'.bitrate d0.bitrate _ _
      (head?_mem_map (fun d => d.bitrate) _ _ hd0') (head?_mem_map (fun d => d.bitrate) _ _ hd0) hbr
    have ehi := highest_perm d0'.bitrate d0.bitrate _ _
      (head?_mem_map (fun d => d.bitrate) _ _ hd0') (head?_mem_map (fun d => d.bitrate) _ _ hd0) hbr
    have etlo := lowest_perm ((d0'.chunk_index : Int) : α) ((d0.chunk_index : Int) : α) _ _
      (head?_mem_map (fun d => ((d.chunk_index : Int) : α)) _ _ hd0')
      (head?_mem_map (fun d => ((d.chunk_index : Int) : α)) _ _ hd0) hci
    have ethi := highest_perm ((d0'.chunk_index : Int) : α) ((d0.chunk_index : Int) : α) _ _
      (head?_mem_map (fun d => ((d.chunk_index : Int) : α)) _ _ hd0')
      (head?_mem_map (fun d => ((d.chunk_index : Int) : α)) _ _ hd0) hci
    rw [hcc, esum, eframes, esize, elo, ehi, etlo, ethi, hlen] at hrun'
    refine ⟨_, _, _, hrun, hrun', rfl, rfl, rfl, rfl, rfl, rfl, rfl, rfl, rfl, rfl, rfl, rfl,
      rfl, rfl, rfl, rfl, rfl, rfl⟩

theorem compute_statistics_order_independent_witness :
    ∃ s s' log,
      compute_statistics Real.sqrt true
        { data := [⟨0, 100, 0, 0, 0⟩, ⟨2, 300, 0, 0, 0⟩, ⟨1, 200, 0, 0, 0⟩], count := 3,
          capacity := 10000 } Statistics.zeroed = some (s, log) ∧
      compute_statistics Real.sqrt true
        { data := [⟨2, 300, 0, 0, 0⟩, ⟨0, 100, 0, 0, 0⟩, ⟨1, 200, 0, 0, 0⟩], count := 3,
          capacity := 10000 } Statistics.zeroed = some (s', log) ∧
      s'.min = s.min ∧ s'.max = s.max ∧ s'.avg = s.avg ∧ s'.median = s.median ∧
      s'.q1 = s.q1 ∧ s'.q3 = s.q3 ∧ s'.q5 = s.q5 ∧ s'.q95 = s.q95 ∧ s'.iqr = s.iqr ∧
      s'.range = s.range ∧ s'.variance = s.variance ∧ s'.std = s.std ∧
      s'.skewness = s.skewness ∧ s'.kurtosis = s.kurtosis ∧ s'.cv = s.cv ∧
      s'.stability_index = s.stability_index ∧ s'.peak_to_avg_ratio = s.peak_to_avg_ratio ∧
      s' = { s with time_resolution := s'.time_resolution } :=
  compute_statistics_order_independent Real.sqrt true
    { data := [⟨0, 100, 0, 0, 0⟩, ⟨2, 300, 0, 0, 0⟩, ⟨1, 200, 0, 0, 0⟩], count := 3,
      capacity := 10000 }
    { data := [⟨2, 300, 0, 0, 0⟩, ⟨0, 100, 0, 0, 0⟩, ⟨1, 200, 0, 0, 0⟩], count := 3,
      capacity := 10000 }
    Statistics.zeroed rfl rfl (by simp) (List.Perm.swap _ _ _)

/-- The field `time_resolution` does depend on the order of the records: the
chunk indices `0, 1, 2` give `1`, the same records in the order `1, 0, 2` give
`3 / 2`. -/
theorem time_resolution_order_dependent [FloorRing α] (sqrt : α → α) :
    ∃ s s' log,
      compute_statistics sqrt true
        { data := [⟨0, 100, 0, 0, 0⟩, ⟨1, 200, 0, 0, 0⟩, ⟨2, 300, 0, 0, 0⟩], count := 3,
          capacity := 10000 } Statistics.zeroed = some (s, log) ∧
      compute_statistics sqrt true
        { data := [⟨1, 200, 0, 0, 0⟩, ⟨0, 100, 0, 0, 0⟩, ⟨2, 300, 0, 0, 0⟩], count := 3,
          capacity := 10000 } Statistics.zeroed = some (s', log) ∧
      s.time_resolution = 1 ∧ s'.time_resolution = 3 / 2 := by
  obtain ⟨_, _, _, _, _, _, _, _, _, _, _, _, _, _, _, _, hrun⟩ :=
    compute_statistics_spec sqrt
      { data := [⟨0, 100, 0, 0, 0⟩, ⟨1, 200, 0, 0, 0⟩, ⟨2, 300, 0, 0, 0⟩], count := 3,
        capacity := 10000 } Statistics.zeroed rfl (by simp)
  obtain ⟨_, _, _, _, _, _, _, _, _, _, _, _, _, _, _, _, hrun'⟩ :=
    compute_statistics_spec sqrt
      { data := [⟨1, 200, 0, 0, 0⟩, ⟨0, 100, 0, 0, 0⟩, ⟨2, 300, 0, 0, 0⟩], count := 3,
        capacity := 10000 } Statistics.zeroed rfl (by simp)
  have hr : List.range 3 = [0, 1, 2] := by decide
  refine ⟨_, _, _, hrun, hrun', ?_, ?_⟩
  · simp only [statisticsRecord, List.length_cons, List.length_nil, hr, List.map_cons,
      List.map_nil, timeDiff, chunkAt]
    norm_num
  · simp only [statisticsRecord, List.length_cons, List.length_nil, hr, List.map_cons,
      List.map_nil, timeDiff, chunkAt]
    norm_num

/-! ## Proofs: the quality label of the known distribution -/

theorem squareRoot_real : SquareRoot Real.sqrt :=
  fun x hx => ⟨Real.sqrt_nonneg x, Real.mul_self_sqrt hx⟩

/-- A square root is above every number whose square is below the argument. -/
theorem SquareRoot.lt_of_sq_lt {sqrt : α → α} (h : SquareRoot sqrt) (a x : α)
    (hx : a * a < x) : a < sqrt x := by
  obtain ⟨h0, h1⟩ := h x (le_trans (mul_self_nonneg a) (le_of_lt hx))
  by_contra hc
  have hle : sqrt x ≤ a := not_lt.mp hc
  have : sqrt x * sqrt x ≤ a * a := mul_self_le_mul_self h0 hle
  linarith

/-- The variability fields of the known distribution. -/
theorem knownDataset_variability [FloorRing α] (sqrt : α → α) (ts : Fin 5 → α)
    (capacity : Int) (stats : Statistics α) :
    ∃ s, compute_statistics sqrt true (knownDataset ts capacity) stats =
        some (s, [⟨"INFO", "Statistics computed successfully"⟩]) ∧
      s.cv = sqrt 2500000 / 3000 * 100 ∧ s.stability_index = 1 - sqrt 2500000 / 3000 := by
  have hscan := knownDataset_scan ts capacity
  have htime := knownDataset_time ts capacity
  have hsort : sort_doubles [(1000 : α), 2000, 3000, 4000, 5000] 5
      = some [1000, 2000, 3000, 4000, 5000] :=
    sort_doubles_of_sorted [(1000 : α), 2000, 3000, 4000, 5000] (by norm_num)
  obtain ⟨h50, h25, h75⟩ := known_percentiles (α := α)
  obtain ⟨h5, h95⟩ := known_percentiles_outer (α := α)
  have hmom := fun st => calculate_moments_eq sqrt [(1000 : α), 2000, 3000, 4000, 5000]
    (15000 / ((5 : Int) : α)) st
  have hlen : (([(1000 : α), 2000, 3000, 4000, 5000].length : Nat) : Int) = 5 := rfl
  simp only [hlen] at hmom
  have hcount : (knownDataset ts capacity).count = 5 := rfl
  have hd0 : (knownDataset ts capacity).data[0]? = some ⟨0, 1000, 0, 0, ts 0⟩ := rfl
  unfold compute_statistics
  rw [hcount, if_neg (by decide), if_neg (by decide)]
  simp only [hd0, Option.bind_eq_bind, Option.some_bind, Option.pure_def, hscan, hsort, h50, h25,
    h75, h5, h95, hmom, htime]
  refine ⟨_, rfl, ?_⟩
  norm_num

/-- C11: for the known distribution (bitrates `[1000, 2000, 3000, 4000, 5000]`,
chunk indices `0..4`) the `cv` computed by `compute_statistics` exceeds `40`, so
`get_quality_assessment` on the resulting record returns the POOR label and not
the MODERATE one.  Of the square root only its defining property is used. -/
theorem known_distribution_is_poor [FloorRing α] (sqrt : α → α) (hsqrt : SquareRoot sqrt)
    (ts : Fin 5 → α) (capacity : Int) (stats : Statistics α) :
    ∃ s, compute_statistics sqrt true (knownDataset ts capacity) stats =
        some (s, [⟨"INFO", "Statistics computed successfully"⟩]) ∧
      s.cv > 40 ∧ get_quality_assessment s = "POOR - Highly variable" ∧
      get_quality_assessment s ≠ "MODERATE - Some fluctuation" := by
  obtain ⟨s, hrun, hcv, hsi⟩ := knownDataset_variability sqrt ts capacity stats
  have hroot : (1200 : α) < sqrt 2500000 :=
    hsqrt.lt_of_sq_lt 1200 2500000 (by norm_num)
  have h40 : s.cv > 40 := by
    rw [hcv, gt_iff_lt, div_mul_eq_mul_div, lt_div_iff₀ (by norm_num)]
    linarith
  have hpoor : get_quality_assessment s = "POOR - Highly variable" := by
    unfold get_quality_assessment
    rw [if_neg (fun h => absurd h.2 (by linarith)), if_neg (fun h => absurd h.2 (by linarith)),
      if_neg (fun h => absurd h.2 (by linarith))]
  refine ⟨s, hrun, h40, hpoor, ?_⟩
  rw [hpoor]
  decide

theorem known_distribution_is_poor_witness :
    ∃ s, compute_statistics Real.sqrt true (knownDataset (fun _ => (0 : ℝ)) 10000)
        Statistics.zeroed = some (s, [⟨"INFO", "Statistics computed successfully"⟩]) ∧
      s.cv > 40 ∧ get_quality_assessment s = "POOR - Highly variable" ∧
      get_quality_assessment s ≠ "MODERATE - Some fluctuation" :=
  known_distribution_is_poor Real.sqrt squareRoot_real (fun _ => 0) 10000 Statistics.zeroed

/-! ## Proofs: recommendations -/

/-- C12: for every record `get_recommendations` returns the concatenation, in
this order, of the CBR advice exactly when `cv > 30`, the rate-control advice
exactly when `peak_to_avg_ratio > 3` and the scene-complexity advice exactly
when `std > avg * 0.5`, each condition on its own and each advice at most once;
the result is the single line "Current settings appear optimal" if and only if
none of the three conditions holds. -/
theorem get_recommendations_rules (s : Statistics α) :
    ((s.cv > 30 ∨ s.peak_to_avg_ratio > 3 ∨ s.std > s.avg * 0.5) →
      get_recommendations s =
        (if s.cv > 30 then "• Consider CBR encoding\n" else "") ++
        (if s.peak_to_avg_ratio > 3 then "• Review rate control settings\n" else "") ++
        (if s.std > s.avg * 0.5 then "• Check for scene complexity\n" else "")) ∧
    (get_recommendations s = "• Current settings appear optimal\n" ↔
      (¬ s.cv > 30 ∧ ¬ s.peak_to_avg_ratio > 3 ∧ ¬ s.std > s.avg * 0.5)) := by
  unfold get_recommendations
  by_cases h1 : s.cv > 30 <;> by_cases h2 : s.peak_to_avg_ratio > 3 <;>
    by_cases h3 : s.std > s.avg * 0.5 <;>
    simp only [h1, h2, h3, if_true, if_false, true_or, or_true, or_false, not_true_eq_false,
      not_false_eq_true, and_self, and_true, and_false, false_and, true_and, forall_true_left,
      false_implies, iff_true, iff_false] <;>
    decide

/-! ## Proofs: duration and time resolution -/

theorem chunkAt_eq (data : List (DataPoint α)) (i : Nat) :
    chunkAt data i = ((((data.map (fun d => d.chunk_index)).getD i 0 : Int)) : α) := by
  unfold chunkAt
  rw [List.getD_eq_getElem?_getD, List.getElem?_map]
  cases data[i]? <;> simp

/-- The sum the second loop accumulates is the sum of the distances between
neighbouring chunk indices. -/
theorem sum_timeDiff (data : List (DataPoint α)) :
    ((List.range data.length).map (timeDiff data)).sum =
      ((adjacentDiffSum (data.map (fun d => d.chunk_index)) : Int) : α) := by
  cases hn : data.length with
  | zero => simp [adjacentDiffSum, hn]
  | succ m =>
    have h0 : timeDiff data 0 = 0 := by simp [timeDiff]
    rw [List.range_eq_range', List.range'_succ, List.map_cons, List.sum_cons, h0, zero_add]
    unfold adjacentDiffSum
    rw [List.length_map, hn, Nat.add_sub_cancel, Int.cast_list_sum, List.map_map]
    congr 1
    apply List.map_congr_left
    intro i hi
    have hi1 : 1 ≤ i := (List.mem_range'_1.mp hi).1
    have hpos : i > 0 := hi1
    simp only [timeDiff, hpos, if_true, chunkAt_eq, Function.comp]
    push_cast
    rfl

/-- The running minimum of a list of integers cast to the field is the cast of
its least member. -/
theorem lowest_intCast (c0 : Int) (cs : List Int) (h0 : c0 ∈ cs) :
    ∃ lo ∈ cs, (∀ c ∈ cs, lo ≤ c) ∧ lowest ((c0 : Int) : α) (cs.map (fun c => ((c : Int) : α)))
      = ((lo : Int) : α) := by
  obtain ⟨_, h2, h3⟩ := lowest_spec ((c0 : Int) : α) (cs.map (fun c => ((c : Int) : α)))
  have hm : lowest ((c0 : Int) : α) (cs.map (fun c => ((c : Int) : α)))
      ∈ cs.map (fun c => ((c : Int) : α)) := by
    rcases h3 with h3 | h3
    · rw [h3]; exact List.mem_map.mpr ⟨c0, h0, rfl⟩
    · exact h3
  obtain ⟨lo, hlo, hval⟩ := List.mem_map.mp hm
  refine ⟨lo, hlo, ?_, hval.symm⟩
  intro c hc
  have := h2 _ (List.mem_map.mpr ⟨c, hc, rfl⟩)
  rw [← hval] at this
  exact_mod_cast this

theorem highest_intCast (c0 : Int) (cs : List Int) (h0 : c0 ∈ cs) :
    ∃ hi ∈ cs, (∀ c ∈ cs, c ≤ hi) ∧ highest ((c0 : Int) : α) (cs.map (fun c => ((c : Int) : α)))
      = ((hi : Int) : α) := by
  obtain ⟨_, h2, h3⟩ := highest_spec ((c0 : Int) : α) (cs.map (fun c => ((c : Int) : α)))
  have hm : highest ((c0 : Int) : α) (cs.map (fun c => ((c : Int) : α)))
      ∈ cs.map (fun c => ((c : Int) : α)) := by
    rcases h3 with h3 | h3
    · rw [h3]; exact List.mem_map.mpr ⟨c0, h0, rfl⟩
    · exact h3
  obtain ⟨hi, hhi, hval⟩ := List.mem_map.mp hm
  refine ⟨hi, hhi, ?_, hval.symm⟩
  intro c hc
  have := h2 _ (List.mem_map.mpr ⟨c, hc, rfl⟩)
  rw [← hval] at this
  exact_mod_cast this

/-- C13: for every non-empty dataset of `n` records `compute_statistics` sets
`total_duration = max (chunk_index) - min (chunk_index) + 1`, and sets
`time_resolution` to the sum over `i = 1 .. n-1` of
`|chunk_index[i] - chunk_index[i-1]|`, in the order of the records, divided by
`n - 1` when `n ≥ 2`, and to `1` when `n = 1`. -/
theorem compute_statistics_time_fields [FloorRing α] (sqrt : α → α) (ds : Dataset α)
    (stats : Statistics α) (hcount : ds.count = (ds.data.length : Int)) (hne : ds.data ≠ []) :
    ∃ s log lo hi, compute_statistics sqrt true ds stats = some (s, log) ∧
      lo ∈ ds.data.map (fun d => d.chunk_index) ∧ hi ∈ ds.data.map (fun d => d.chunk_index) ∧
      (∀ c ∈ ds.data.map (fun d => d.chunk_index), lo ≤ c ∧ c ≤ hi) ∧
      s.total_duration = (((hi - lo + 1 : Int)) : α) ∧
      (2 ≤ ds.data.length → s.time_resolution =
        ((adjacentDiffSum (ds.data.map (fun d => d.chunk_index)) : Int) : α)
          / ((ds.data.length : α) - 1)) ∧
      (ds.data.length = 1 → s.time_resolution = 1) := by
  obtain ⟨d0, sorted, median, q1, q3, q5, q95, hd0, _, _, _, _, _, _, _, _, hrun⟩ :=
    compute_statistics_spec sqrt ds stats hcount hne
  have hmem : d0.chunk_index ∈ ds.data.map (fun d => d.chunk_index) :=
    head?_mem_map (fun d => d.chunk_index) _ _ hd0
  obtain ⟨lo, hlo, hlole, hloval⟩ := lowest_intCast (α := α) d0.chunk_index _ hmem
  obtain ⟨hi, hhi, hhile, hhival⟩ := highest_intCast (α := α) d0.chunk_index _ hmem
  rw [List.map_map] at hloval hhival
  refine ⟨_, _, lo, hi, hrun, hlo, hhi, fun c hc => ⟨hlole c hc, hhile c hc⟩, ?_, ?_, ?_⟩
  · simp only [statisticsRecord]
    have e1 : ((fun c : Int => (c : α)) ∘ fun d : DataPoint α => d.chunk_index)
        = fun d : DataPoint α => ((d.chunk_index : Int) : α) := rfl
    rw [e1] at hloval hhival
    rw [hloval, hhival]
    push_cast
    ring
  · intro h2
    have hpos : ((ds.data.length - 1 : Nat) : Int) > 0 := by omega
    simp only [statisticsRecord, hpos, if_true, sum_timeDiff]
    congr 1
    rw [Int.cast_natCast, Nat.cast_sub (by omega)]
    simp
  · intro h1
    simp [statisticsRecord, h1]

theorem compute_statistics_time_fields_witness :
    ∃ s log lo hi, compute_statistics Real.sqrt true (sampleDataset : Dataset ℝ)
        Statistics.zeroed = some (s, log) ∧
      lo ∈ (sampleDataset : Dataset ℝ).data.map (fun d => d.chunk_index) ∧
      hi ∈ (sampleDataset : Dataset ℝ).data.map (fun d => d.chunk_index) ∧
      (∀ c ∈ (sampleDataset : Dataset ℝ).data.map (fun d => d.chunk_index), lo ≤ c ∧ c ≤ hi) ∧
      s.total_duration = (((hi - lo + 1 : Int)) : ℝ) ∧
      (2 ≤ (sampleDataset : Dataset ℝ).data.length → s.time_resolution =
        ((adjacentDiffSum ((sampleDataset : Dataset ℝ).data.map (fun d => d.chunk_index)) : Int) : ℝ)
          / (((sampleDataset : Dataset ℝ).data.length : ℝ) - 1)) ∧
      ((sampleDataset : Dataset ℝ).data.length = 1 → s.time_resolution = 1) :=
  compute_statistics_time_fields Real.sqrt sampleDataset Statistics.zeroed rfl
    (by simp [sampleDataset])

/-! ## Proofs: record store -/

/-- A call of `add_data_point` that returns non-zero on a dataset whose `count`
is the number of its records appends the point and keeps that property. -/
theorem add_data_point_appends {β : Type} (realloc_ok : Int → Bool) (ds ds1 : Dataset β)
    (point : DataPoint β) (r : Int) (hcount : ds.count = (ds.data.length : Int))
    (hrun : add_data_point realloc_ok ds point = some (r, ds1)) (hr : r ≠ 0) :
    ds1.data = ds.data ++ [point] ∧ ds1.count = (ds1.data.length : Int) := by
  have hnat : ds.count.toNat = ds.data.length := by omega
  have hstore : ∀ c : Int, ∀ d, store_data_point { ds with capacity := c } point = some d →
      d.data = ds.data ++ [point] ∧ d.count = (d.data.length : Int) := by
    intro c d hd
    unfold store_data_point at hd
    simp only [hnat, if_true] at hd
    split_ifs at hd with h1
    cases Option.some.inj hd
    refine ⟨rfl, ?_⟩
    simp only [List.length_append, List.length_singleton]
    push_cast
    omega
  have key : ∀ c : Int,
      (store_data_point { ds with capacity := c } point).map (fun d => ((1 : Int), d))
        = some (r, ds1) → ds1.data = ds.data ++ [point] ∧ ds1.count = (ds1.data.length : Int) := by
    intro c h
    cases hst : store_data_point { ds with capacity := c } point with
    | none => rw [hst] at h; cases h
    | some d =>
      rw [hst] at h
      simp only [Option.map_some', Option.some.injEq, Prod.mk.injEq] at h
      rw [← h.2]
      exact hstore c d hst
  unfold add_data_point at hrun
  by_cases h1 : ds.count ≥ ds.capacity
  · rw [if_pos h1] at hrun
    dsimp only at hrun
    by_cases h2 : (!realloc realloc_ok (wrapInt (ds.capacity * 2))) = true
    · rw [if_pos h2] at hrun
      simp only [Option.some.injEq, Prod.mk.injEq] at hrun
      exact absurd hrun.1.symm hr
    · rw [if_neg h2] at hrun
      exact key _ hrun
  · rw [if_neg h1] at hrun
    exact key ds.capacity hrun

/-- A value of the 32-bit range is kept by the wrap-around. -/
theorem wrapInt_of_fits (x : Int) (h0 : -2147483648 ≤ x) (h1 : x ≤ 2147483647) :
    wrapInt x = x := by
  unfold wrapInt
  rw [Int.emod_eq_of_lt (by omega) (by omega)]
  omega

/-- The byte count of a request for `c ≥ 0` cells is `40 * c`. -/
theorem reallocSize_of_nonneg (c : Int) (h0 : 0 ≤ c) (hmax : c ≤ 2147483647) :
    reallocSize c = 40 * c := by
  unfold reallocSize sizeofDataPoint
  exact Int.emod_eq_of_lt (by omega) (by omega)

/-- The byte count of a request for a negative number of cells: the conversion
to `size_t` adds `2 ^ 64`. -/
theorem reallocSize_of_neg (c : Int) (h0 : -2147483648 ≤ c) (hmax : c < 0) :
    reallocSize c = 40 * c + 18446744073709551616 := by
  unfold reallocSize sizeofDataPoint
  have e : (40 * c) % 18446744073709551616 =
      ((40 * c + 18446744073709551616) + (-1) * 18446744073709551616) % 18446744073709551616 := by
    congr 1
    omega
  rw [e, Int.add_mul_emod_self]
  exact Int.emod_eq_of_lt (by omega) (by omega)

/-- A reallocation to the doubled capacity that succeeds shows that the
doubling stayed inside the 32-bit `int`: when `capacity * 2` wraps around, the
new capacity is negative, its byte count as a `size_t` is above `PTRDIFF_MAX`
and `realloc` fails. -/
theorem realloc_doubled_fits (realloc_ok : Int → Bool) (capacity : Int) (hcap : 1 ≤ capacity)
    (hmax : capacity ≤ 2147483647)
    (hre : realloc realloc_ok (wrapInt (capacity * 2)) = true) :
    capacity * 2 ≤ 2147483647 ∧ wrapInt (capacity * 2) = capacity * 2 := by
  by_cases hfit : capacity * 2 ≤ 2147483647
  · exact ⟨hfit, wrapInt_of_fits _ (by omega) hfit⟩
  · exfalso
    have hw : wrapInt (capacity * 2) = capacity * 2 - 4294967296 := by
      unfold wrapInt
      have e : capacity * 2 + 2147483648 = (capacity * 2 - 2147483648) + 1 * 4294967296 := by
        omega
      rw [e, Int.add_mul_emod_self, Int.emod_eq_of_lt (by omega) (by omega)]
      omega
    simp only [realloc, Bool.and_eq_true, decide_eq_true_eq] at hre
    rw [hw, reallocSize_of_neg _ (by omega) (by omega)] at hre
    omega

/-- At the capacity `2 ^ 30` the doubling wraps around to `-2 ^ 31`, the byte
count of the request is above `PTRDIFF_MAX`, and a call on a full store returns
`0` and leaves the store as it was, whatever `realloc_ok` tells. -/
theorem add_data_point_at_wrap {β : Type} (realloc_ok : Int → Bool) (ds : Dataset β)
    (point : DataPoint β) (hcap : ds.capacity = 1073741824) (hfull : ds.count = ds.capacity) :
    wrapInt (ds.capacity * 2) = -2147483648 ∧
      reallocSize (wrapInt (ds.capacity * 2)) = 18446743987810205696 ∧
      add_data_point realloc_ok ds point = some (0, ds) := by
  have hw : wrapInt (ds.capacity * 2) = -2147483648 := by rw [hcap]; decide
  have hs : reallocSize (-2147483648) = 18446743987810205696 := by decide
  refine ⟨hw, by rw [hw, hs], ?_⟩
  unfold add_data_point
  rw [if_pos (by omega)]
  dsimp only
  rw [hw]
  have hr : realloc realloc_ok (-2147483648) = false := by
    unfold realloc
    rw [hs]
    rfl
  rw [hr]
  rfl

/-- A call of `add_data_point` on a store with at least one cell, whose `count`
records are initialised and fit the capacity, when the reallocation it may need
succeeds: the value returned and the store after the call. -/
theorem add_data_point_spec {β : Type} (realloc_ok : Int → Bool) (ds : Dataset β) (point : DataPoint β)
    (hcap : 1 ≤ ds.capacity) (hmax : ds.capacity ≤ 2147483647) (h0 : 0 ≤ ds.count)
    (hle : ds.count ≤ ds.capacity) (hrec : ds.count ≤ (ds.data.length : Int))
    (hre : ds.count = ds.capacity → realloc realloc_ok (wrapInt (ds.capacity * 2)) = true) :
    add_data_point realloc_ok ds point =
      some (1, { data := if ds.count.toNat = ds.data.length then ds.data ++ [point]
                         else ds.data.set ds.count.toNat point
                 count := ds.count + 1
                 capacity := if ds.count = ds.capacity then ds.capacity * 2 else ds.capacity }) := by
  have hstore : ∀ c : Int, ds.count < c →
      store_data_point { ds with capacity := c } point =
        some { data := if ds.count.toNat = ds.data.length then ds.data ++ [point]
                       else ds.data.set ds.count.toNat point
               count := ds.count + 1
               capacity := c } := by
    intro c hc
    unfold store_data_point
    rw [if_pos ⟨h0, hc⟩]
    by_cases hn : ds.count.toNat = ds.data.length
    · simp only [hn, if_true]
    · have hlt : ds.count.toNat < ds.data.length := by omega
      simp only [hn, hlt, if_true, if_false]
  unfold add_data_point
  by_cases h1 : ds.count ≥ ds.capacity
  · have heq : ds.count = ds.capacity := le_antisymm hle h1
    obtain ⟨_, hw⟩ := realloc_doubled_fits realloc_ok ds.capacity hcap hmax (hre heq)
    rw [if_pos h1]
    dsimp only
    rw [hre heq, hw, hstore (ds.capacity * 2) (by omega)]
    simp [heq]
  · have hne : ds.count ≠ ds.capacity := fun h => h1 (by omega)
    rw [if_neg h1]
    have := hstore ds.capacity (by omega)
    simp only [hne, if_false]
    rw [this]
    rfl

/-- A call of `add_data_point` on a store with a free cell does not reallocate:
it writes the point and returns `1`. -/
theorem add_data_point_room {β : Type} (realloc_ok : Int → Bool) (ds : Dataset β)
    (point : DataPoint β) (h0 : 0 ≤ ds.count) (hlt : ds.count < ds.capacity)
    (hrec : ds.count ≤ (ds.data.length : Int)) :
    add_data_point realloc_ok ds point =
      some (1, { data := if ds.count.toNat = ds.data.length then ds.data ++ [point]
                         else ds.data.set ds.count.toNat point
                 count := ds.count + 1
                 capacity := ds.capacity }) := by
  unfold add_data_point
  rw [if_neg (by omega)]
  unfold store_data_point
  rw [if_pos ⟨h0, hlt⟩]
  by_cases hn : ds.count.toNat = ds.data.length
  · simp only [hn, if_true]
    rfl
  · have hl : ds.count.toNat < ds.data.length := by omega
    simp only [hn, hl, if_true, if_false]
    rfl

/-- C18: for every dataset with `capacity ≥ 1` and `0 ≤ count ≤ capacity` (the
capacity being a 32-bit `int` and the `count` records being the first cells of
the buffer), a call of `add_data_point` whose reallocation, if it needs one,
succeeds returns `1`, increases `count` by exactly `1`, stores the new point at
index old-`count`, leaves all earlier records unchanged and in the same order,
doubles `capacity` exactly when `count` had reached `capacity`, and keeps
`count ≤ capacity`.  The doubling is the wrapping product of the C type: the
reallocation cannot succeed when it wraps around, so the doubled capacity, and
with it the new `count`, stays inside the 32-bit `int`. -/
theorem add_data_point_grows {β : Type} (realloc_ok : Int → Bool) (ds : Dataset β) (point : DataPoint β)
    (hcap : 1 ≤ ds.capacity) (hmax : ds.capacity ≤ 2147483647) (h0 : 0 ≤ ds.count)
    (hle : ds.count ≤ ds.capacity) (hrec : ds.count ≤ (ds.data.length : Int))
    (hre : ds.count = ds.capacity → realloc realloc_ok (wrapInt (ds.capacity * 2)) = true) :
    ∃ ds', add_data_point realloc_ok ds point = some (1, ds') ∧
      ds'.count = ds.count + 1 ∧
      ds'.data[ds.count.toNat]? = some point ∧
      (∀ i : Nat, (i : Int) < ds.count → ds'.data[i]? = ds.data[i]?) ∧
      ds'.capacity = (if ds.count = ds.capacity then 2 * ds.capacity else ds.capacity) ∧
      ds'.count ≤ ds'.capacity ∧ ds'.capacity ≤ 2147483647 := by
  refine ⟨_, add_data_point_spec realloc_ok ds point hcap hmax h0 hle hrec hre, rfl, ?_, ?_, ?_,
    ?_, ?_⟩
  · by_cases hn : ds.count.toNat = ds.data.length
    · simp [hn]
    · have hlt : ds.count.toNat < ds.data.length := by omega
      simp [hn, hlt]
  · intro i hi
    by_cases hn : ds.count.toNat = ds.data.length
    · simp only [hn, if_true]
      rw [List.getElem?_append_left (by omega)]
    · have hne : ds.count.toNat ≠ i := by omega
      simp only [hn, if_false]
      rw [List.getElem?_set_ne hne]
  · by_cases hc : ds.count = ds.capacity <;> simp [hc, mul_comm]
  · by_cases hc : ds.count = ds.capacity
    · simp only [hc, if_true]
      omega
    · simp only [hc, if_false]
      omega
  · by_cases hc : ds.count = ds.capacity
    · simp only [hc, if_true]
      exact (realloc_doubled_fits realloc_ok ds.capacity hcap hmax (hre hc)).1
    · simp only [hc, if_false]
      exact hmax

theorem add_data_point_grows_witness :
    ∃ ds', add_data_point (fun _ => true)
        ({ data := [⟨0, 100, 0, 0, 0⟩, ⟨1, 200, 0, 0, 0⟩], count := 2, capacity := 2 } : Dataset ℚ)
        ⟨2, 300, 0, 0, 0⟩ = some (1, ds') ∧
      ds'.count = 2 + 1 ∧
      ds'.data[(2 : Int).toNat]? = some ⟨2, 300, 0, 0, 0⟩ ∧
      (∀ i : Nat, (i : Int) < 2 → ds'.data[i]? =
        ([⟨0, 100, 0, 0, 0⟩, ⟨1, 200, 0, 0, 0⟩] : List (DataPoint ℚ))[i]?) ∧
      ds'.capacity = (if (2 : Int) = 2 then 2 * 2 else 2) ∧
      ds'.count ≤ ds'.capacity ∧ ds'.capacity ≤ 2147483647 :=
  add_data_point_grows (fun _ => true)
    ({ data := [⟨0, 100, 0, 0, 0⟩, ⟨1, 200, 0, 0, 0⟩], count := 2, capacity := 2 } : Dataset ℚ)
    ⟨2, 300, 0, 0, 0⟩ (by decide) (by decide) (by decide) (by decide) (by decide) (fun _ => rfl)

/-! ## Proofs: CSV ingestion -/

/-- A run of the row loop that ends with the value `1` has appended, in the
order of the lines, the records of the lines whose parsed bitrate is
positive. -/
theorem load_csv_rows_spec (atoi : List Char → Int) (atof : List Char → α)
    (realloc_ok : Int → Bool) (cols : Columns) (lines : List (List Char)) (ds : Dataset α)
    (log : List LogLine) (r : LoadResult α) (hcount : ds.count = (ds.data.length : Int))
    (hrun : load_csv_rows atoi atof realloc_ok cols lines ds log = some r) (hok : r.ret = 1) :
    r.ds.data = ds.data ++
        (lines.map (load_csv_point atoi atof cols)).filter (fun p => decide (p.bitrate > 0)) ∧
      r.ds.count = (r.ds.data.length : Int) := by
  induction lines generalizing ds with
  | nil =>
    simp only [load_csv_rows, Option.some.injEq] at hrun
    subst hrun
    simp [hcount]
  | cons line rest ih =>
    simp only [load_csv_rows] at hrun
    by_cases hpos : (load_csv_point atoi atof cols line).bitrate > 0
    · rw [if_pos hpos] at hrun
      cases hadd : add_data_point realloc_ok ds (load_csv_point atoi atof cols line) with
      | none => rw [hadd] at hrun; cases hrun
      | some pair =>
        obtain ⟨r1, ds1⟩ := pair
        rw [hadd] at hrun
        simp only at hrun
        by_cases hr0 : r1 = 0
        · rw [if_pos hr0] at hrun
          cases Option.some.inj hrun
          simp at hok
        · rw [if_neg hr0] at hrun
          obtain ⟨hdata, hc1⟩ := add_data_point_appends realloc_ok ds ds1 _ r1 hcount hadd hr0
          obtain ⟨h1, h2⟩ := ih ds1 hc1 hrun
          refine ⟨?_, h2⟩
          rw [h1, hdata, List.map_cons, List.filter_cons_of_pos (by simpa using hpos)]
          simp
    · rw [if_neg hpos] at hrun
      obtain ⟨h1, h2⟩ := ih ds hcount hrun
      refine ⟨?_, h2⟩
      rw [h1, List.map_cons, List.filter_cons_of_neg (by simpa using hpos)]

/-- C14: after a successful ingestion by `load_csv` (it returns `1`) into an
initially empty dataset, the record store holds, in the order of the file,
exactly the records parsed from the data lines whose parsed bitrate is
positive: every record has `bitrate > 0`, and `count` is the number of data
lines with a positive parsed bitrate (a line whose bitrate is parsed as `0` or
less, as `atof` does for text that is no number, contributes nothing). -/
theorem load_csv_keeps_positive (atoi : List Char → Int) (atof : List Char → α)
    (realloc_ok : Int → Bool) (content : List Char) (ds : Dataset α) (r : LoadResult α)
    (hdata : ds.data = []) (hcount : ds.count = 0)
    (hrun : load_csv atoi atof realloc_ok (some content) ds = some r) (hok : r.ret = 1) :
    r.ds.data =
        ((fgetsAll 4096 content []).tail.map
          (load_csv_point atoi atof (load_csv_columns (fgetsAll 4096 content [])))).filter
          (fun p => decide (p.bitrate > 0)) ∧
      (∀ p ∈ r.ds.data, p.bitrate > 0) ∧
      r.ds.count = (((fgetsAll 4096 content []).tail.map
          (load_csv_point atoi atof (load_csv_columns (fgetsAll 4096 content [])))).countP
          (fun p => decide (p.bitrate > 0)) : Nat) := by
  simp only [load_csv] at hrun
  split_ifs at hrun with hcols
  · cases Option.some.inj hrun
    simp at hok
  · obtain ⟨h1, h2⟩ := load_csv_rows_spec atoi atof realloc_ok _ _ ds _ r
      (by rw [hcount, hdata]; rfl) hrun hok
    rw [hdata, List.nil_append] at h1
    refine ⟨h1, ?_, ?_⟩
    · intro p hp
      rw [h1] at hp
      simpa using (List.mem_filter.mp hp).2
    · rw [h2, h1, List.countP_eq_length_filter]

/-- The ingestion of the sample file into an empty store of capacity `10000`,
with decimal digits read as numbers. -/
theorem sampleCsv_load :
    load_csv (fun s => ((decimalValue s : Nat) : Int)) (fun s => ((decimalValue s : Nat) : ℚ))
        (fun _ => true) (some sampleCsv) { data := [], count := 0, capacity := 10000 } =
      some { ret := 1
             ds := { data := [⟨0, 100, 0, 0, 0⟩, ⟨2, 300, 0, 0, 0⟩], count := 2, capacity := 10000 }
             log := [⟨"INFO", "CSV header validated successfully"⟩,
                     ⟨"INFO", "Loaded 2 data points from CSV"⟩] } := by
  rfl

theorem load_csv_keeps_positive_witness :
    ([⟨0, 100, 0, 0, 0⟩, ⟨2, 300, 0, 0, 0⟩] : List (DataPoint ℚ)) =
        ((fgetsAll 4096 sampleCsv []).tail.map
          (load_csv_point (fun s => ((decimalValue s : Nat) : Int))
            (fun s => ((decimalValue s : Nat) : ℚ))
            (load_csv_columns (fgetsAll 4096 sampleCsv [])))).filter
          (fun p => decide (p.bitrate > 0)) ∧
      (∀ p ∈ ([⟨0, 100, 0, 0, 0⟩, ⟨2, 300, 0, 0, 0⟩] : List (DataPoint ℚ)), p.bitrate > 0) ∧
      (2 : Int) = (((fgetsAll 4096 sampleCsv []).tail.map
          (load_csv_point (fun s => ((decimalValue s : Nat) : Int))
            (fun s => ((decimalValue s : Nat) : ℚ))
            (load_csv_columns (fgetsAll 4096 sampleCsv [])))).countP
          (fun p => decide (p.bitrate > 0)) : Nat) :=
  load_csv_keeps_positive (fun s => ((decimalValue s : Nat) : Int))
    (fun s => ((decimalValue s : Nat) : ℚ)) (fun _ => true) sampleCsv
    { data := [], count := 0, capacity := 10000 } _ rfl rfl sampleCsv_load rfl

/-- A reallocation to a capacity of the 32-bit range asks for fewer than
`PTRDIFF_MAX` bytes: its outcome is the one `realloc_ok` tells. -/
theorem realloc_in_range (realloc_ok : Int → Bool) (c : Int) (h0 : 0 ≤ c) (hmax : c ≤ 2147483647)
    (hre : realloc_ok c = true) : realloc realloc_ok c = true := by
  simp only [realloc, Bool.and_eq_true, decide_eq_true_eq]
  rw [reallocSize_of_nonneg c h0 hmax]
  exact ⟨by omega, hre⟩

/-- The row loop runs to its end with the value `1` when every reallocation of
a size `realloc` can serve succeeds, the store starts with at least one cell and
a `count` that is the number of its records and fits its capacity, and the
records it can end with, doubled, fit a 32-bit `int`. -/
theorem load_csv_rows_succeeds (atoi : List Char → Int) (atof : List Char → α)
    (realloc_ok : Int → Bool) (hre : ∀ c, realloc_ok c = true) (cols : Columns)
    (lines : List (List Char)) (ds : Dataset α) (log : List LogLine) (hcap : 1 ≤ ds.capacity)
    (hmax : ds.capacity ≤ 2147483647)
    (hfit : 2 * (ds.count + (lines.length : Int)) ≤ 2147483647)
    (hle : ds.count ≤ ds.capacity) (hcount : ds.count = (ds.data.length : Int)) :
    ∃ r, load_csv_rows atoi atof realloc_ok cols lines ds log = some r ∧ r.ret = 1 := by
  induction lines generalizing ds with
  | nil => exact ⟨_, rfl, rfl⟩
  | cons line rest ih =>
    simp only [List.length_cons, Nat.cast_add, Nat.cast_one] at hfit
    simp only [load_csv_rows]
    by_cases hpos : (load_csv_point atoi atof cols line).bitrate > 0
    · have hw : ds.count = ds.capacity → wrapInt (ds.capacity * 2) = ds.capacity * 2 := by
        intro hc
        unfold wrapInt
        omega
      rw [if_pos hpos,
        add_data_point_spec realloc_ok ds _ hcap hmax (by omega) hle (by omega)
          (fun hc => by
            rw [hw hc]
            exact realloc_in_range realloc_ok _ (by omega) (by omega) (hre _))]
      have hnat : ds.count.toNat = ds.data.length := by omega
      simp only [hnat, if_true, one_ne_zero, if_false]
      apply ih
      · by_cases hc : ds.count = ds.capacity
        · simp only [hc, if_true]; omega
        · simp only [hc, if_false]; exact hcap
      · by_cases hc : ds.count = ds.capacity
        · simp only [hc, if_true]; omega
        · simp only [hc, if_false]; exact hmax
      · show 2 * (ds.count + 1 + (rest.length : Int)) ≤ 2147483647
        omega
      · by_cases hc : ds.count = ds.capacity
        · simp only [hc, if_true]; omega
        · simp only [hc, if_false]; omega
      · simp only [List.length_append, List.length_singleton]
        push_cast
        omega
    · rw [if_neg hpos]
      exact ih ds hcap hmax (by omega) hle hcount

/-- The ingestion succeeds on every file whose first line names the two
required columns and whose lines, doubled, fit a 32-bit `int`, into an empty
store with at least one cell, when every reallocation of a size `realloc` can
serve succeeds. -/
theorem load_csv_succeeds (atoi : List Char → Int) (atof : List Char → α)
    (realloc_ok : Int → Bool) (hre : ∀ c, realloc_ok c = true) (content : List Char)
    (capacity : Int) (hcap : 1 ≤ capacity) (hmax : capacity ≤ 2147483647)
    (hfit : 2 * ((fgetsAll 4096 content []).length : Int) ≤ 2147483647)
    (hcols : (load_csv_columns (fgetsAll 4096 content [])).chunk_idx ≠ -1 ∧
      (load_csv_columns (fgetsAll 4096 content [])).bitrate_idx ≠ -1) :
    ∃ r, load_csv atoi atof realloc_ok (some content)
        { data := [], count := 0, capacity := capacity } = some r ∧ r.ret = 1 := by
  simp only [load_csv]
  rw [if_neg (by rintro (h | h); exact hcols.1 h; exact hcols.2 h)]
  refine load_csv_rows_succeeds atoi atof realloc_ok hre _ _ _ _ hcap hmax ?_ (by simp; omega) rfl
  have hlen : ((fgetsAll 4096 content []).tail.length : Int) ≤
      ((fgetsAll 4096 content []).length : Int) := by
    rw [List.length_tail]
    omega
  show 2 * (0 + ((fgetsAll 4096 content []).tail.length : Int)) ≤ 2147483647
  omega

/-- The tokens of a data line with an empty field: `strtok` skips the empty
run between the two commas, so the line `7,,500` has two tokens, not three. -/
theorem strtokAll_empty_field :
    strtokAll csvDelims (cString "7,,500\n".toList) [] = ["7".toList, "500".toList] := by
  decide

/-- C15, the code at the failing input: the file has the header
`chunk_index,frame_count,bitrate_per_chunk` and the data line `7,,500`, whose
bitrate column holds `500` and whose optional `frame_count` field is empty.
Whatever `atoi` and `atof` return, `load_csv` reads `500` as the frame count,
finds no bitrate, and drops the line: it returns `1` with the store still
empty. -/
theorem load_csv_empty_field_drops_row (atoi : List Char → Int) (atof : List Char → α)
    (realloc_ok : Int → Bool) (capacity : Int) :
    load_csv_point atoi atof (load_csv_columns (fgetsAll 4096 emptyFieldCsv []))
        "7,,500\n".toList = ⟨atoi "7".toList, 0, atoi "500".toList, 0, 0⟩ ∧
      load_csv atoi atof realloc_ok (some emptyFieldCsv)
        { data := [], count := 0, capacity := capacity } =
      some { ret := 1
             ds := { data := [], count := 0, capacity := capacity }
             log := [⟨"INFO", "CSV header validated successfully"⟩,
                     ⟨"INFO", "Loaded 0 data points from CSV"⟩] } := by
  have hlines : fgetsAll 4096 emptyFieldCsv [] =
      ["chunk_index,frame_count,bitrate_per_chunk\n".toList, "7,,500\n".toList] := by decide
  have hcols : load_csv_columns (fgetsAll 4096 emptyFieldCsv []) = ⟨0, 2, 1, -1, -1⟩ := by decide
  have hpoint : load_csv_point atoi atof ⟨0, 2, 1, -1, -1⟩ "7,,500\n".toList
      = ⟨atoi "7".toList, 0, atoi "500".toList, 0, 0⟩ := by
    unfold load_csv_point
    rw [strtokAll_empty_field]
    simp [load_csv_row, load_csv_row_step]
  refine ⟨by rw [hcols, hpoint], ?_⟩
  unfold load_csv
  dsimp only
  rw [hcols, hlines, List.tail_cons, if_neg (by decide), load_csv_rows]
  rw [hpoint, if_neg (lt_irrefl _), load_csv_rows]
  rfl

/-- The same line with text that is no number in the optional field is kept,
as the specification says: when `atoi` returns `0` for `abc` and `atof` returns
a positive bitrate for `500`, the record has the frame count `0` and the chunk
index and bitrate of their own columns. -/
theorem load_csv_text_field_keeps_row (atoi : List Char → Int) (atof : List Char → α)
    (realloc_ok : Int → Bool) (capacity : Int) (hcap : 1 ≤ capacity)
    (habc : atoi "abc".toList = 0) (hpos : atof "500".toList > 0) :
    load_csv atoi atof realloc_ok (some textFieldCsv)
        { data := [], count := 0, capacity := capacity } =
      some { ret := 1
             ds := { data := [⟨atoi "7".toList, atof "500".toList, 0, 0, 0⟩], count := 1,
                     capacity := capacity }
             log := [⟨"INFO", "CSV header validated successfully"⟩,
                     ⟨"INFO", "Loaded 1 data points from CSV"⟩] } := by
  have hlines : fgetsAll 4096 textFieldCsv [] =
      ["chunk_index,frame_count,bitrate_per_chunk\n".toList, "7,abc,500\n".toList] := by decide
  have hcols : load_csv_columns (fgetsAll 4096 textFieldCsv []) = ⟨0, 2, 1, -1, -1⟩ := by decide
  have htok : strtokAll csvDelims (cString "7,abc,500\n".toList) []
      = ["7".toList, "abc".toList, "500".toList] := by decide
  have hpoint : load_csv_point atoi atof ⟨0, 2, 1, -1, -1⟩ "7,abc,500\n".toList
      = ⟨atoi "7".toList, atof "500".toList, 0, 0, 0⟩ := by
    unfold load_csv_point
    rw [htok]
    simp [load_csv_row, load_csv_row_step]
    exact habc
  have hadd := add_data_point_room realloc_ok
    ({ data := [], count := 0, capacity := capacity } : Dataset α)
    ⟨atoi "7".toList, atof "500".toList, 0, 0, 0⟩ (by simp) (by simp; omega) (by simp)
  unfold load_csv
  dsimp only
  rw [hcols, hlines, List.tail_cons, if_neg (by decide), load_csv_rows]
  rw [hpoint, if_pos hpos, hadd]
  dsimp only
  rw [if_neg (by decide), load_csv_rows]
  simp only [List.length_nil, Int.toNat_zero, if_true, List.nil_append, zero_add]
  rfl

/-! ## Proofs: the average lies between the extremes -/

/-- The sum of a list lies between its length times a lower bound and its
length times an upper bound of its members. -/
theorem sum_between (l : List α) (lo hi : α) (hlo : ∀ y ∈ l, lo ≤ y) (hhi : ∀ y ∈ l, y ≤ hi) :
    lo * (l.length : α) ≤ l.sum ∧ l.sum ≤ hi * (l.length : α) := by
  induction l with
  | nil => simp
  | cons x t ih =>
    obtain ⟨h1, h2⟩ := ih (fun y hy => hlo y (List.mem_cons_of_mem _ hy))
      (fun y hy => hhi y (List.mem_cons_of_mem _ hy))
    have hx1 := hlo x (List.mem_cons_self _ _)
    have hx2 := hhi x (List.mem_cons_self _ _)
    simp only [List.length_cons, List.sum_cons, Nat.cast_add, Nat.cast_one]
    constructor <;> nlinarith

/-- The minimum, average and maximum `compute_statistics` stores, for a
non-empty dataset: the minimum and the maximum are bitrates of the dataset that
bound all its bitrates, and the average lies between them. -/
theorem compute_statistics_extremes [FloorRing α] (sqrt : α → α) (ds : Dataset α)
    (stats : Statistics α) (hcount : ds.count = (ds.data.length : Int)) (hne : ds.data ≠ []) :
    ∃ s log, compute_statistics sqrt true ds stats = some (s, log) ∧
      s.min ∈ ds.data.map (fun d => d.bitrate) ∧ s.max ∈ ds.data.map (fun d => d.bitrate) ∧
      (∀ y ∈ ds.data.map (fun d => d.bitrate), s.min ≤ y ∧ y ≤ s.max) ∧
      s.min ≤ s.avg ∧ s.avg ≤ s.max := by
  obtain ⟨d0, sorted, median, q1, q3, q5, q95, hd0, _, _, _, _, _, _, _, _, hrun⟩ :=
    compute_statistics_spec sqrt ds stats hcount hne
  have hmem : d0.bitrate ∈ ds.data.map (fun d => d.bitrate) :=
    head?_mem_map (fun d => d.bitrate) _ _ hd0
  obtain ⟨_, l2, l3⟩ := lowest_spec d0.bitrate (ds.data.map (fun d => d.bitrate))
  obtain ⟨_, g2, g3⟩ := highest_spec d0.bitrate (ds.data.map (fun d => d.bitrate))
  have hlo : lowest d0.bitrate (ds.data.map (fun d => d.bitrate))
      ∈ ds.data.map (fun d => d.bitrate) := by
    rcases l3 with h | h
    · rw [h]; exact hmem
    · exact h
  have hhi : highest d0.bitrate (ds.data.map (fun d => d.bitrate))
      ∈ ds.data.map (fun d => d.bitrate) := by
    rcases g3 with h | h
    · rw [h]; exact hmem
    · exact h
  obtain ⟨s1, s2⟩ := sum_between (ds.data.map (fun d => d.bitrate)) _ _ l2 g2
  rw [List.length_map] at s1 s2
  have hn : (0 : α) < ((ds.count : Int) : α) := by
    rw [hcount, Int.cast_natCast]
    exact_mod_cast List.length_pos.mpr hne
  have hcast : ((ds.count : Int) : α) = (ds.data.length : α) := by
    rw [hcount, Int.cast_natCast]
  refine ⟨_, _, hrun, hlo, hhi, fun y hy => ⟨l2 y hy, g2 y hy⟩, ?_, ?_⟩
  · simp only [statisticsRecord]
    rw [le_div_iff₀ hn, hcast]
    exact s1
  · simp only [statisticsRecord]
    rw [div_le_iff₀ hn, hcast]
    exact s2

/-- C16, as amended: for every non-empty dataset whose records all have
`bitrate > 0`, the `avg` computed by `compute_statistics` satisfies `avg > 0`,
so `cv`, `stability_index` and `peak_to_avg_ratio` are not divided by zero, and
over exact arithmetic it satisfies `min ≤ avg ≤ max` as well. -/
theorem compute_statistics_avg_positive [FloorRing α] (sqrt : α → α) (ds : Dataset α)
    (stats : Statistics α) (hcount : ds.count = (ds.data.length : Int)) (hne : ds.data ≠ [])
    (hpos : ∀ d ∈ ds.data, d.bitrate > 0) :
    ∃ s log, compute_statistics sqrt true ds stats = some (s, log) ∧
      s.min ≤ s.avg ∧ s.avg ≤ s.max ∧ s.avg > 0 ∧ s.avg ≠ 0 := by
  obtain ⟨s, log, hrun, hmin, _, _, h1, h2⟩ :=
    compute_statistics_extremes sqrt ds stats hcount hne
  obtain ⟨d, hd, hval⟩ := List.mem_map.mp hmin
  have hminpos : 0 < s.min := by rw [← hval]; exact hpos d hd
  have havg : 0 < s.avg := lt_of_lt_of_le hminpos h1
  exact ⟨s, log, hrun, h1, h2, havg, ne_of_gt havg⟩

theorem compute_statistics_avg_positive_witness :
    ∃ s log, compute_statistics Real.sqrt true (sampleDataset : Dataset ℝ) Statistics.zeroed
        = some (s, log) ∧
      s.min ≤ s.avg ∧ s.avg ≤ s.max ∧ s.avg > 0 ∧ s.avg ≠ 0 :=
  compute_statistics_avg_positive Real.sqrt sampleDataset Statistics.zeroed rfl
    (by simp [sampleDataset]) (by simp [sampleDataset])

/-! ## Proofs: the stability index is not clamped -/

/-- A square root returns a non-negative number from its square. -/
theorem SquareRoot.sqrt_mul_self {sqrt : α → α} (h : SquareRoot sqrt) (a : α) (ha : 0 ≤ a) :
    sqrt (a * a) = a := by
  obtain ⟨h0, h1⟩ := h (a * a) (mul_self_nonneg a)
  exact (mul_self_inj_of_nonneg h0 ha).mp h1

/-- The record assembled from four sorted bitrates `1, 1, 1, 100` with the sum
`103`: average, standard deviation and stability index. -/
theorem statisticsRecord_spike (sqrt : α → α) (hsqrt : SquareRoot sqrt) (sum lo hi : α)
    (hsum : sum = 103) (total_frames : Int) (total_chunk_size median q1 q3 q5 q95 : α)
    (t : TimeState α) :
    (statisticsRecord sqrt 4 sum lo hi total_frames total_chunk_size [1, 1, 1, 100] median q1 q3
        q5 q95 t).avg = 25.75 ∧
      (statisticsRecord sqrt 4 sum lo hi total_frames total_chunk_size [1, 1, 1, 100] median q1 q3
        q5 q95 t).std = 49.5 ∧
      (statisticsRecord sqrt 4 sum lo hi total_frames total_chunk_size [1, 1, 1, 100] median q1 q3
        q5 q95 t).stability_index = 1 - 49.5 / 25.75 ∧
      (statisticsRecord sqrt 4 sum lo hi total_frames total_chunk_size [1, 1, 1, 100] median q1 q3
        q5 q95 t).stability_index < 0 := by
  subst hsum
  have hroot : sqrt (2450.25 : α) = 49.5 := by
    have := hsqrt.sqrt_mul_self (49.5 : α) (by norm_num)
    have e : (49.5 : α) * 49.5 = 2450.25 := by norm_num
    rwa [e] at this
  have hvar : (([1, 1, 1, 100] : List α).map
      (fun v => (v - (103 : α) / (((4 : Int)) : α)) ^ 2)).sum
      / ((((4 : Int) - 1 : Int)) : α) = 2450.25 := by
    simp only [List.map_cons, List.map_nil, List.sum_cons, List.sum_nil]
    norm_num
  simp only [statisticsRecord, hvar, hroot]
  norm_num

/-- C17: `compute_statistics` sets `stability_index = 1 - std / avg` with no
clamping, and the value can be negative for a non-empty dataset of positive
bitrates: the bitrates `[1, 1, 1, 100]` give `avg = 25.75`, `std = 49.5` and
`stability_index = 1 - 49.5 / 25.75 < 0`. -/
theorem stability_index_unclamped [FloorRing α] (sqrt : α → α) (hsqrt : SquareRoot sqrt) :
    (∀ (ds : Dataset α) (stats : Statistics α), ds.count = (ds.data.length : Int) →
      ds.data ≠ [] →
      ∃ s log, compute_statistics sqrt true ds stats = some (s, log) ∧
        s.stability_index = 1 - s.std / s.avg) ∧
    (∀ (d1 d2 d3 d4 : DataPoint α) (capacity : Int) (stats : Statistics α),
      ∃ s log, compute_statistics sqrt true
          { data := [{ d1 with bitrate := 1 }, { d2 with bitrate := 1 }, { d3 with bitrate := 1 },
                     { d4 with bitrate := 100 }]
            count := 4
            capacity := capacity } stats = some (s, log) ∧
        s.avg = 25.75 ∧ s.std = 49.5 ∧ s.stability_index = 1 - 49.5 / 25.75 ∧
        s.stability_index < 0) := by
  constructor
  · intro ds stats hcount hne
    obtain ⟨d0, sorted, median, q1, q3, q5, q95, _, _, _, _, _, _, _, _, _, hrun⟩ :=
      compute_statistics_spec sqrt ds stats hcount hne
    exact ⟨_, _, hrun, rfl⟩
  · intro d1 d2 d3 d4 capacity stats
    obtain ⟨d0, sorted, median, q1, q3, q5, q95, _, _, hperm, hsorted, _, _, _, _, _, hrun⟩ :=
      compute_statistics_spec sqrt
        { data := [{ d1 with bitrate := 1 }, { d2 with bitrate := 1 }, { d3 with bitrate := 1 },
                   { d4 with bitrate := 100 }]
          count := 4
          capacity := capacity } stats rfl (by simp)
    have hs : sorted = [1, 1, 1, 100] :=
      List.eq_of_perm_of_sorted hperm hsorted (by norm_num)
    subst hs
    have hsum : (([{ d1 with bitrate := 1 }, { d2 with bitrate := 1 }, { d3 with bitrate := 1 },
        { d4 with bitrate := (100 : α) }] : List (DataPoint α)).map (fun d => d.bitrate)).sum
        = 103 := by
      simp only [List.map_cons, List.map_nil, List.sum_cons, List.sum_nil]
      norm_num
    exact ⟨_, _, hrun, statisticsRecord_spike sqrt hsqrt _ _ _ hsum _ _ _ _ _ _ _ _⟩

theorem stability_index_unclamped_witness :
    (∀ (ds : Dataset ℝ) (stats : Statistics ℝ), ds.count = (ds.data.length : Int) →
      ds.data ≠ [] →
      ∃ s log, compute_statistics Real.sqrt true ds stats = some (s, log) ∧
        s.stability_index = 1 - s.std / s.avg) ∧
    (∀ (d1 d2 d3 d4 : DataPoint ℝ) (capacity : Int) (stats : Statistics ℝ),
      ∃ s log, compute_statistics Real.sqrt true
          { data := [{ d1 with bitrate := 1 }, { d2 with bitrate := 1 }, { d3 with bitrate := 1 },
                     { d4 with bitrate := 100 }]
            count := 4
            capacity := capacity } stats = some (s, log) ∧
        s.avg = 25.75 ∧ s.std = 49.5 ∧ s.stability_index = 1 - 49.5 / 25.75 ∧
        s.stability_index < 0) :=
  stability_index_unclamped Real.sqrt squareRoot_real

/-! ## Proofs: the order statistics are ordered -/

/-- On a non-empty sorted array the percentile for `p1` is at most the one for
`p2` when `0 ≤ p1 ≤ p2 ≤ 100`. -/
theorem calculate_percentile_le [FloorRing α] (x : List α) (hn : 0 < x.length)
    (hs : x.Sorted (· ≤ ·)) (p1 p2 v1 v2 : α) (h0 : 0 ≤ p1) (h12 : p1 ≤ p2) (h100 : p2 ≤ 100)
    (e1 : calculate_percentile x (x.length : Int) p1 = some v1)
    (e2 : calculate_percentile x (x.length : Int) p2 = some v2) : v1 ≤ v2 := by
  have hc : (0 : α) ≤ ((((x.length : Int) - 1 : Int)) : α) := by
    have : (0 : Int) ≤ (x.length : Int) - 1 := by omega
    exact_mod_cast this
  obtain ⟨w1, w2, f1, f2, hle⟩ := percentileAt_mono x hs
    ((p1 / 100) * ((((x.length : Int) - 1 : Int)) : α))
    ((p2 / 100) * ((((x.length : Int) - 1 : Int)) : α))
    (percentile_index_bounds x.length hn p1 h0 (le_trans h12 h100)).1
    (mul_le_mul_of_nonneg_right (div_le_div_of_nonneg_right h12 (by norm_num)) hc)
    (percentile_index_bounds x.length hn p2 (le_trans h0 h12) h100).2
  rw [calculate_percentile_eq] at e1 e2
  rw [f1] at e1
  rw [f2] at e2
  cases Option.some.inj e1
  cases Option.some.inj e2
  exact hle

/-- C19, as amended: over exact arithmetic, for every non-empty dataset the order
statistics produced by `compute_statistics` satisfy
`min ≤ q5 ≤ q1 ≤ median ≤ q3 ≤ q95 ≤ max`, and therefore `iqr ≥ 0` and
`range ≥ 0`. -/
theorem compute_statistics_order_statistics [FloorRing α] (sqrt : α → α) (ds : Dataset α)
    (stats : Statistics α) (hcount : ds.count = (ds.data.length : Int)) (hne : ds.data ≠ []) :
    ∃ s log, compute_statistics sqrt true ds stats = some (s, log) ∧
      s.min ≤ s.q5 ∧ s.q5 ≤ s.q1 ∧ s.q1 ≤ s.median ∧ s.median ≤ s.q3 ∧ s.q3 ≤ s.q95 ∧
      s.q95 ≤ s.max ∧ s.iqr ≥ 0 ∧ s.range ≥ 0 := by
  obtain ⟨d0, sorted, median, q1, q3, q5, q95, hd0, _, hperm, hsorted, h50, h25, h75, h5, h95,
    hrun⟩ := compute_statistics_spec sqrt ds stats hcount hne
  have hslen : sorted.length = ds.data.length := by rw [hperm.length_eq, List.length_map]
  have hpos : 0 < sorted.length := by rw [hslen]; exact List.length_pos.mpr hne
  have hc : ds.count = (sorted.length : Int) := by rw [hcount, hslen]
  rw [hc] at h50 h25 h75 h5 h95
  have a1 : q5 ≤ q1 := calculate_percentile_le sorted hpos hsorted 5 25 q5 q1 (by norm_num)
    (by norm_num) (by norm_num) h5 h25
  have a2 : q1 ≤ median := calculate_percentile_le sorted hpos hsorted 25 50 q1 median
    (by norm_num) (by norm_num) (by norm_num) h25 h50
  have a3 : median ≤ q3 := calculate_percentile_le sorted hpos hsorted 50 75 median q3
    (by norm_num) (by norm_num) (by norm_num) h50 h75
  have a4 : q3 ≤ q95 := calculate_percentile_le sorted hpos hsorted 75 95 q3 q95 (by norm_num)
    (by norm_num) (by norm_num) h75 h95
  obtain ⟨v5, e5, b5, _⟩ := calculate_percentile_defined sorted hpos hsorted 5 (by norm_num)
    (by norm_num)
  obtain ⟨v95, e95, _, b95⟩ := calculate_percentile_defined sorted hpos hsorted 95 (by norm_num)
    (by norm_num)
  have hv5 : v5 = q5 := Option.some.inj (e5.symm.trans h5)
  have hv95 : v95 = q95 := Option.some.inj (e95.symm.trans h95)
  rw [hv5] at b5
  rw [hv95] at b95
  obtain ⟨_, l2, _⟩ := lowest_spec d0.bitrate (ds.data.map (fun d => d.bitrate))
  obtain ⟨_, g2, _⟩ := highest_spec d0.bitrate (ds.data.map (fun d => d.bitrate))
  have m0 : sorted[0] ∈ ds.data.map (fun d => d.bitrate) :=
    hperm.mem_iff.mp (List.getElem_mem _)
  have m1 : sorted[sorted.length - 1] ∈ ds.data.map (fun d => d.bitrate) :=
    hperm.mem_iff.mp (List.getElem_mem _)
  have a0 : lowest d0.bitrate (ds.data.map (fun d => d.bitrate)) ≤ q5 := le_trans (l2 _ m0) b5
  have a5 : q95 ≤ highest d0.bitrate (ds.data.map (fun d => d.bitrate)) :=
    le_trans b95 (g2 _ m1)
  refine ⟨_, _, hrun, a0, a1, a2, a3, a4, a5, ?_, ?_⟩
  · show q3 - q1 ≥ 0
    linarith
  · show highest d0.bitrate _ - lowest d0.bitrate _ ≥ 0
    linarith

theorem compute_statistics_order_statistics_witness :
    ∃ s log, compute_statistics Real.sqrt true (sampleDataset : Dataset ℝ) Statistics.zeroed
        = some (s, log) ∧
      s.min ≤ s.q5 ∧ s.q5 ≤ s.q1 ∧ s.q1 ≤ s.median ∧ s.median ≤ s.q3 ∧ s.q3 ≤ s.q95 ∧
      s.q95 ≤ s.max ∧ s.iqr ≥ 0 ∧ s.range ≥ 0 :=
  compute_statistics_order_statistics Real.sqrt sampleDataset Statistics.zeroed rfl
    (by simp [sampleDataset])

/-! ## Proofs: the quality label as a function of `cv` -/

/-- A store from `create_dataset` with a capacity of at least `1` is empty and
meets what `add_data_point` needs. -/
theorem create_dataset_ready {β : Type} (initial_capacity : Int) (hcap : 1 ≤ initial_capacity) :
    ∃ ds : Dataset β, create_dataset true true initial_capacity = some ds ∧
      ds.data = [] ∧ ds.count = 0 ∧ ds.capacity = initial_capacity ∧
      1 ≤ ds.capacity ∧ 0 ≤ ds.count ∧ ds.count ≤ ds.capacity ∧
      ds.count ≤ (ds.data.length : Int) :=
  ⟨_, rfl, rfl, rfl, rfl, hcap, le_rfl, by show (0 : Int) ≤ initial_capacity; omega, le_rfl⟩

/-! ## Proofs: rounding in `double` arithmetic -/

namespace Binary64

/-- With enough fuel the number of halvings of `n > 0` is its binary logarithm
rounded down. -/
theorem halvings_spec : ∀ fuel n : Nat, 0 < n → n < 2 ^ fuel →
    2 ^ halvings fuel n ≤ n ∧ n < 2 ^ (halvings fuel n + 1)
  | 0, n, h0, h => by
    simp at h
    omega
  | fuel + 1, n, h0, h => by
    unfold halvings
    by_cases h2 : n < 2
    · rw [if_pos h2]
      simp
      omega
    · rw [if_neg h2]
      have ih := halvings_spec fuel (n / 2) (by omega) (by rw [pow_succ] at h; omega)
      rw [pow_succ, pow_succ]
      omega

/-- The binary logarithm of `n > 0`: `2 ^ log2 n ≤ n < 2 ^ (log2 n + 1)`. -/
theorem log2_spec (n : Nat) (h : 0 < n) : 2 ^ log2 n ≤ n ∧ n < 2 ^ (log2 n + 1) :=
  halvings_spec n n h (Nat.lt_two_pow n)

/-- A power of two with an exponent that is not negative. -/
theorem zpow_two_of_nonneg (z : Int) (h : 0 ≤ z) : (2 : ℚ) ^ z = ((2 ^ z.toNat : Nat) : ℚ) := by
  conv_lhs => rw [← Int.toNat_of_nonneg h]
  rw [zpow_natCast]
  push_cast
  rfl

/-- A power of two with a negative exponent. -/
theorem zpow_two_of_neg (z : Int) (h : z < 0) :
    (2 : ℚ) ^ z = (((2 ^ (-z).toNat : Nat) : ℚ))⁻¹ := by
  have e : z = -(((-z).toNat : Nat) : Int) := by omega
  conv_lhs => rw [e]
  rw [zpow_neg, zpow_natCast]
  push_cast
  rfl

/-- The exponent of `n / d` is not above its binary logarithm. -/
theorem exponent_le (n d : Nat) (hn : 0 < n) (hd : 0 < d) :
    (2 : ℚ) ^ exponent n d ≤ (n : ℚ) / (d : ℚ) := by
  obtain ⟨ha, _⟩ := log2_spec n hn
  obtain ⟨_, hb⟩ := log2_spec d hd
  have hdq : (0 : ℚ) < (d : ℚ) := by exact_mod_cast hd
  have hlow : (2 : ℚ) ^ ((log2 n : Int) - (log2 d : Int) - 1) ≤ (n : ℚ) / (d : ℚ) := by
    have e : ((log2 n : Int) - (log2 d : Int) - 1) = (log2 n : Int) - ((log2 d + 1 : Nat) : Int) := by
      push_cast
      ring
    rw [e, zpow_sub₀ (by norm_num), zpow_natCast, zpow_natCast]
    have h1 : (2 : ℚ) ^ log2 n ≤ (n : ℚ) := by exact_mod_cast ha
    have h2 : (d : ℚ) ≤ (2 : ℚ) ^ (log2 d + 1) := by exact_mod_cast le_of_lt hb
    exact div_le_div₀ (by positivity) h1 hdq h2
  unfold exponent
  dsimp only
  split_ifs with h0 hc hc
  · rw [zpow_two_of_nonneg _ h0, le_div_iff₀ hdq]
    rw [mul_comm]
    exact_mod_cast hc
  · exact hlow
  · rw [zpow_two_of_neg _ (by omega), inv_eq_one_div, div_le_div_iff₀ (by positivity) hdq, one_mul]
    exact_mod_cast hc
  · exact hlow

/-- The rounded quotient of `a ≥ b > 0` is positive. -/
theorem roundDiv_pos (a b : Nat) (hb : 0 < b) (hab : b ≤ a) : 0 < roundDiv a b := by
  have hk : 0 < a / b := Nat.div_pos hab hb
  unfold roundDiv
  dsimp only
  split_ifs <;> omega

/-- The number `m * 2 ^ e` is positive for `m > 0`. -/
theorem scale_pos (m : Nat) (e : Int) (hm : 0 < m) : 0 < scale m e := by
  unfold scale
  split_ifs with h
  · have : 0 < m * 2 ^ e.toNat := Nat.mul_pos hm (by positivity)
    exact_mod_cast this
  · rw [Rat.mkRat_eq_div]
    have h1 : (0 : ℚ) < ((m : Int) : ℚ) := by exact_mod_cast hm
    have h2 : (0 : ℚ) < (((2 ^ (-e).toNat : Nat) : Int) : ℚ) := by
      have : 0 < 2 ^ (-e).toNat := by positivity
      exact_mod_cast this
    exact div_pos h1 h2

/-- The number `m * 2 ^ e` is not negative. -/
theorem scale_nonneg (m : Nat) (e : Int) : 0 ≤ scale m e := by
  rcases Nat.eq_zero_or_pos m with h | h
  · subst h
    unfold scale
    split_ifs <;> simp
  · exact le_of_lt (scale_pos m e h)

/-- The significand of a positive rational is positive. -/
theorem significand_pos (n d : Nat) (hn : 0 < n) (hd : 0 < d) (e : Int)
    (he : e ≤ exponent n d) :
    0 < (if 0 ≤ e then roundDiv n (d * 2 ^ e.toNat) else roundDiv (n * 2 ^ (-e).toNat) d) := by
  have hdq : (0 : ℚ) < (d : ℚ) := by exact_mod_cast hd
  have h := exponent_le n d hn hd
  have h2 : (2 : ℚ) ^ e ≤ (n : ℚ) / (d : ℚ) :=
    le_trans (zpow_le_zpow_right₀ (by norm_num) he) h
  split_ifs with h0
  · apply roundDiv_pos _ _ (Nat.mul_pos hd (by positivity))
    rw [zpow_two_of_nonneg _ h0, le_div_iff₀ hdq, mul_comm] at h2
    exact_mod_cast h2
  · apply roundDiv_pos _ _ hd
    rw [zpow_two_of_neg _ (by omega), inv_eq_one_div, div_le_div_iff₀ (by positivity) hdq,
      one_mul] at h2
    exact_mod_cast h2

/-- Rounding keeps a positive number positive. -/
theorem roundNearestEven_pos (q r : ℚ) (hq : 0 < q) (h : roundNearestEven q = some r) :
    0 < r := by
  have hn : 0 < q.num.natAbs := Int.natAbs_pos.mpr (ne_of_gt (Rat.num_pos.mpr hq))
  have hm := significand_pos q.num.natAbs q.den hn q.den_pos
    (exponent q.num.natAbs q.den - 52) (by omega)
  unfold roundNearestEven at h
  rw [if_neg (ne_of_gt hq)] at h
  dsimp only at h
  generalize (if 0 ≤ exponent q.num.natAbs q.den - 52 then
      roundDiv q.num.natAbs (q.den * 2 ^ (exponent q.num.natAbs q.den - 52).toNat)
    else roundDiv (q.num.natAbs * 2 ^ (-(exponent q.num.natAbs q.den - 52)).toNat) q.den) = m
    at h hm
  by_cases hc : exponent q.num.natAbs q.den < -1022 ∨
      ((2 ^ 1024 : Nat) : ℚ) ≤ scale m (exponent q.num.natAbs q.den - 52)
  · rw [if_pos hc] at h
    cases h
  · rw [if_neg hc, if_neg (not_lt.mpr (le_of_lt hq))] at h
    cases Option.some.inj h
    exact scale_pos m _ hm

/-- Rounding keeps a number that is not negative so. -/
theorem roundNearestEven_nonneg (q r : ℚ) (hq : 0 ≤ q) (h : roundNearestEven q = some r) :
    0 ≤ r := by
  rcases eq_or_lt_of_le hq with h0 | h0
  · rw [← h0] at h
    unfold roundNearestEven at h
    rw [if_pos rfl] at h
    cases Option.some.inj h
    exact le_rfl
  · exact le_of_lt (roundNearestEven_pos q r h0 h)


/-- The rounded sum of a number that is not negative and a positive one is
positive. -/
theorem add_pos_of_nonneg (a b r : ℚ) (ha : 0 ≤ a) (hb : 0 < b) (h : add a b = some r) : 0 < r :=
  roundNearestEven_pos _ r (by linarith) h

/-- The rounded quotient of two positive numbers is positive. -/
theorem div_pos_of_pos (a b r : ℚ) (ha : 0 < a) (hb : 0 < b) (h : div a b = some r) : 0 < r := by
  unfold div at h
  rw [if_neg (ne_of_gt hb)] at h
  exact roundNearestEven_pos _ r (div_pos ha hb) h

/-- The running sum of the first loop of `compute_statistics` over positive
bitrates is positive from the first round on. -/
theorem compute_statistics_scan_sum_pos (data : List (DataPoint ℚ))
    (hpos : ∀ d ∈ data, d.bitrate > 0) (s0 : ScanState ℚ) (h0 : 0 ≤ s0.sum) :
    ∀ (n : Nat) (s : ScanState ℚ),
      (List.range n).foldlM (compute_statistics_scan data) s0 = some s →
      0 ≤ s.sum ∧ (0 < n → 0 < s.sum)
  | 0, s, h => by
    simp only [List.range_zero, List.foldlM_nil, Option.pure_def, Option.some.injEq] at h
    subst h
    exact ⟨h0, fun hn => absurd hn (lt_irrefl 0)⟩
  | n + 1, s, h => by
    rw [List.range_succ, List.foldlM_append] at h
    simp only [Option.bind_eq_bind, Option.bind_eq_some, List.foldlM_cons, List.foldlM_nil,
      Option.pure_def] at h
    obtain ⟨s1, hs1, s2, hs2, hs⟩ := h
    cases Option.some.inj hs
    obtain ⟨h1, _⟩ := compute_statistics_scan_sum_pos data hpos s0 h0 n s1 hs1
    unfold compute_statistics_scan at hs2
    simp only [Option.bind_eq_bind, Option.bind_eq_some, Option.pure_def, Option.some.injEq] at hs2
    obtain ⟨d, hd, sum, hsum, tcs, _, hs⟩ := hs2
    have hdpos : 0 < d.bitrate := hpos d (List.getElem?_mem hd)
    have hsp : 0 < sum := add_pos_of_nonneg _ _ _ h1 hdpos hsum
    rw [← hs]
    exact ⟨le_of_lt hsp, fun _ => hsp⟩

/-- The function `calculate_moments` leaves `avg` as it was. -/
theorem calculate_moments_avg (data : List ℚ) (count : Int) (mean : ℚ) (stats s : Statistics ℚ)
    (h : calculate_moments data count mean stats = some s) : s.avg = stats.avg := by
  unfold calculate_moments at h
  simp only [Option.bind_eq_bind, Option.bind_eq_some, Option.pure_def] at h
  obtain ⟨acc, _, variance, _, std, _, h⟩ := h
  split_ifs at h
  · simp only [Option.bind_eq_some, Option.some.injEq] at h
    obtain ⟨_, _, _, _, _, _, _, _, _, _, _, _, _, _, rfl⟩ := h
    rfl
  · cases Option.some.inj h
    rfl

/-- The average `compute_statistics` stores for positive bitrates is positive in
`double` arithmetic as well: whenever the run stays inside the normal range of
`double`, the divisor of `cv`, `stability_index` and `peak_to_avg_ratio` is
positive. -/
theorem compute_statistics_avg_pos (ds : Dataset ℚ) (stats s : Statistics ℚ)
    (log : List LogLine) (hcount : 0 < ds.count) (hpos : ∀ d ∈ ds.data, d.bitrate > 0)
    (h : compute_statistics true ds stats = some (s, log)) : 0 < s.avg := by
  unfold compute_statistics at h
  rw [if_neg (ne_of_gt hcount), if_neg (by decide)] at h
  simp only [Option.bind_eq_bind, Option.bind_eq_some, Option.pure_def, Option.some.injEq,
    Prod.mk.injEq] at h
  obtain ⟨d0, _, sc, hsc, ⟨avg, bitrates, st1⟩, hord, st2, hmom, st3, hvol, t, _, st4, hdur, st5,
    hrat, hs, _⟩ := h
  have hsum : 0 < sc.sum :=
    (compute_statistics_scan_sum_pos ds.data hpos _ (le_refl (0 : ℚ)) _ sc hsc).2 (by omega)
  unfold compute_statistics_order at hord
  simp only [Option.bind_eq_bind, Option.bind_eq_some, Option.pure_def, Option.some.injEq,
    Prod.mk.injEq] at hord
  obtain ⟨avg', havg, _, _, _, _, _, _, _, _, _, _, _, _, _, _, _, _, e1, _, e3⟩ := hord
  have hap : 0 < avg' := div_pos_of_pos _ _ _ hsum (by exact_mod_cast hcount) havg
  have a1 : st1.avg = avg' := by rw [← e3]
  have a2 : st2.avg = st1.avg := calculate_moments_avg _ _ _ _ _ hmom
  have a3 : st3.avg = st2.avg := by
    unfold compute_statistics_volume at hvol
    simp only [Option.bind_eq_bind, Option.bind_eq_some, Option.pure_def, Option.some.injEq]
      at hvol
    obtain ⟨_, _, _, _, _, _, rfl⟩ := hvol
    rfl
  have a4 : st4.avg = st3.avg := by
    unfold compute_statistics_duration at hdur
    simp only [Option.bind_eq_bind, Option.bind_eq_some, Option.pure_def, Option.some.injEq]
      at hdur
    obtain ⟨_, _, _, _, h⟩ := hdur
    split_ifs at h
    · simp only [Option.bind_eq_some, Option.some.injEq] at h
      obtain ⟨_, _, rfl⟩ := h
      rfl
    · simp only [Option.some_bind, Option.some.injEq] at h
      rw [← h]
  have a5 : st5.avg = st4.avg := by
    unfold compute_statistics_ratios at hrat
    simp only [Option.bind_eq_bind, Option.bind_eq_some, Option.pure_def, Option.some.injEq]
      at hrat
    obtain ⟨_, _, _, _, _, _, rfl⟩ := hrat
    rfl
  rw [← hs, a5, a4, a3, a2, a1]
  exact hap

end Binary64

/-- Values of the rounding: one third rounds to `6004799503160661 / 2 ^ 54`
(printed `0.3333333333333333`), a tie between two neighbours goes to the even
significand (`2 ^ 53 + 1` down, `2 ^ 53 + 3` up), a number of 53 bits is kept,
`2 ^ 1024` and `2 ^ (-1023)` are outside the normal range, and the square roots
of `2` and `1 / 2` are `6369051672525773 / 2 ^ 52` and
`6369051672525773 / 2 ^ 53` (printed `1.4142135623730951` and
`0.7071067811865476`). -/
theorem rounding_values :
    Binary64.roundNearestEven (1 / 3) = some (6004799503160661 / 18014398509481984) ∧
      Binary64.roundNearestEven 9007199254740993 = some 9007199254740992 ∧
      Binary64.roundNearestEven 9007199254740995 = some 9007199254740996 ∧
      Binary64.roundNearestEven 9007199254740991 = some 9007199254740991 ∧
      Binary64.roundNearestEven (-(1 / 3)) = some (-(6004799503160661 / 18014398509481984)) ∧
      Binary64.roundNearestEven (2 ^ 1024) = none ∧
      Binary64.roundNearestEven (1 / 2 ^ 1023) = none ∧
      Binary64.sqrt 2 = some (6369051672525773 / 4503599627370496) ∧
      Binary64.sqrt (1 / 2) = some (6369051672525773 / 9007199254740992) ∧
      Binary64.sqrt 9 = some 3 := by
  decide!

/-- The steps of `calculate_percentile` on the array `[3, 3]` with `p = 5` in
`double` arithmetic: the index and the weight are `0.05`, `1 - weight` is
`0.95`, the two products are `2.8499999999999996` and `0.15000000000000002`,
and their sum is `2.9999999999999996`. -/
theorem calculate_percentile_rounding_steps :
    Binary64.div 5 100 = some (3602879701896397 / 72057594037927936) ∧
      Binary64.mul (3602879701896397 / 72057594037927936) 1 =
        some (3602879701896397 / 72057594037927936) ∧
      ⌊(3602879701896397 / 72057594037927936 : ℚ)⌋ = 0 ∧
      ⌈(3602879701896397 / 72057594037927936 : ℚ)⌉ = 1 ∧
      Binary64.sub (3602879701896397 / 72057594037927936) 0 =
        some (3602879701896397 / 72057594037927936) ∧
      Binary64.sub 1 (3602879701896397 / 72057594037927936) =
        some (4278419646001971 / 4503599627370496) ∧
      Binary64.mul 3 (4278419646001971 / 4503599627370496) =
        some (1604407367250739 / 562949953421312) ∧
      Binary64.mul 3 (3602879701896397 / 72057594037927936) =
        some (1351079888211149 / 9007199254740992) ∧
      Binary64.add (1604407367250739 / 562949953421312) (1351079888211149 / 9007199254740992) =
        some (6755399441055743 / 2251799813685248) := by
  decide!

/-- The steps of the average of three bitrates `0.1` in `double` arithmetic: the
running sum is `0.1`, `0.2`, `0.30000000000000004`, and its third is
`0.10000000000000002`. -/
theorem average_rounding_steps :
    Binary64.add 0 tenth = some tenth ∧
      Binary64.add tenth tenth = some (3602879701896397 / 18014398509481984) ∧
      Binary64.add (3602879701896397 / 18014398509481984) tenth =
        some (1351079888211149 / 4503599627370496) ∧
      Binary64.div (1351079888211149 / 4503599627370496) 3 =
        some (7205759403792795 / 72057594037927936) := by
  decide!

/-- The steps of `cv` and `stability_index` on the bitrates `900, 900, 1069` in
`double` arithmetic: `avg = 956.3333333333334`, `std = 97.57219549304676`,
`std / avg = 0.10202739159258985`, hence `cv = 10.202739159258984` and
`stability_index = 0.8979726084074101`, whereas `cv / 100` is
`0.10202739159258984` and `1 - cv / 100` is `0.8979726084074102`. -/
theorem stability_index_rounding_steps :
    (Binary64.compute_statistics true unevenTriple Statistics.zeroed).map
        (fun r => (r.1.avg, r.1.std)) =
        some (8411996960238251 / 8796093022208, 1716508215875807 / 17592186044416) ∧
      Binary64.div (1716508215875807 / 17592186044416) (8411996960238251 / 8796093022208) =
        some (7351848364127541 / 72057594037927936) ∧
      Binary64.mul (7351848364127541 / 72057594037927936) 100 =
        some (5743631534474641 / 562949953421312) ∧
      Binary64.sub 1 (7351848364127541 / 72057594037927936) =
        some (8088218209225049 / 9007199254740992) ∧
      Binary64.div (5743631534474641 / 562949953421312) 100 =
        some (1837962091031885 / 18014398509481984) ∧
      Binary64.sub 1 (1837962091031885 / 18014398509481984) =
        some (4044109104612525 / 4503599627370496) := by
  decide!

/-- C2, counterexample: in `double` arithmetic, on the ascending array `[3, 3]`
the call with `p = 0` returns `3` and the call with `p = 5` returns
`3 - 2 ^ (-51)`, printed `2.9999999999999996`: the greater percentile has the
smaller value. -/
theorem calculate_percentile_rounding_not_monotone :
    Binary64.calculate_percentile [3, 3] 2 0 = some 3 ∧
      Binary64.calculate_percentile [3, 3] 2 5 = some (6755399441055743 / 2251799813685248) ∧
      (6755399441055743 / 2251799813685248 : ℚ) < 3 := by
  refine ⟨by decide!, by decide!, by norm_num⟩

/-- C19, counterexample: in `double` arithmetic, on two records with the
bitrate `3`, `compute_statistics` stores `min = 3` and
`q5 = 3 - 2 ^ (-51)`, printed `2.9999999999999996`: `q5` is below `min`. -/
theorem compute_statistics_rounding_q5_below_min :
    ∃ s log, Binary64.compute_statistics true equalPair Statistics.zeroed = some (s, log) ∧
      s.min = 3 ∧ s.q5 = 6755399441055743 / 2251799813685248 ∧ s.q5 < s.min := by
  have h : (Binary64.compute_statistics true equalPair Statistics.zeroed).map
      (fun r => (r.1.min, r.1.q5)) = some (3, 6755399441055743 / 2251799813685248) := by
    decide!
  obtain ⟨⟨s, log⟩, hr, hf⟩ := Option.map_eq_some'.mp h
  obtain ⟨h1, h2⟩ := Prod.mk.inj hf
  refine ⟨s, log, hr, h1, h2, ?_⟩
  show s.q5 < s.min
  rw [h1, h2]
  norm_num

/-- C16, counterexample: in `double` arithmetic, on three records with the
bitrate `0.1` (the `double` nearest to one tenth), `compute_statistics` stores
`max = 0.1` and `avg = 0.1 + 2 ^ (-56)`, printed `0.10000000000000002`: the sum
rounds to `0.30000000000000004` and `avg` is above `max`. -/
theorem compute_statistics_rounding_avg_above_max :
    Binary64.roundNearestEven (1 / 10) = some tenth ∧
      ∃ s log, Binary64.compute_statistics true threeTenths Statistics.zeroed = some (s, log) ∧
        s.max = tenth ∧ s.avg = 7205759403792795 / 72057594037927936 ∧ s.max < s.avg := by
  have h : (Binary64.compute_statistics true threeTenths Statistics.zeroed).map
      (fun r => (r.1.max, r.1.avg)) = some (tenth, 7205759403792795 / 72057594037927936) := by
    decide!
  obtain ⟨⟨s, log⟩, hr, hf⟩ := Option.map_eq_some'.mp h
  obtain ⟨h1, h2⟩ := Prod.mk.inj hf
  refine ⟨by decide!, s, log, hr, h1, h2, ?_⟩
  show s.max < s.avg
  rw [h1, h2]
  norm_num [tenth]

end FfmpegMicroscope
